import Mathlib

/-!
# Package initialization records: `cmd/compile/internal/gc/init.go`

A shallow embedding of `renameinit` and `fninit`.  The package-level variables
of the compiler that `fninit` reads or writes are gathered in `State`; the
collaborators that live in other files of the compiler (`initOrder`, `resolve`,
`dclfunc`, the target constants) are the fields of `Ext`.  A run of `fninit`
ends in one of four ways, recorded by `Result`: a call of `base.Fatalf`, a nil
dereference, the early `return` of line 98, or the end of the function after
the record has been written.
-/

namespace Gc

/-- Source positions (`src.XPos`), kept abstract. -/
abbrev XPos := Nat

/-- Node operation codes (`ir.Op`).  `fninit` inspects only `ONAME` and `OEMPTY`;
every other code is `OTHER k`. -/
inductive Op where
  | ONAME
  | OEMPTY
  | OTHER (code : Nat)
  deriving DecidableEq, Repr

/-- Storage classes of names (`ir.Class`).  `Pxxx` is the zero value a fresh name
carries, `PEXTERN` is the class of package-scope variables. -/
inductive Class where
  | Pxxx
  | PEXTERN
  | POTHER (code : Nat)
  deriving DecidableEq, Repr

/-- Type kinds (`types.Types[...]`); only `TUINT8` is used by `fninit`. -/
inductive Kind where
  | TUINT8
  | TOTHER (code : Nat)
  deriving DecidableEq, Repr

/-- A compiler symbol (`*types.Sym`): a name inside a package. -/
structure Sym where
  pkg : String
  name : String
  deriving DecidableEq, Repr

/-- A package (`*types.Pkg`): import path and package name. -/
structure Pkg where
  path : String
  name : String
  deriving DecidableEq, Repr

/-- A linker symbol (`*obj.LSym`), identified by the compiler symbol whose
`Linksym()` it is. -/
structure LSym where
  sym : Sym
  deriving DecidableEq, Repr

/-- The method `(*types.Pkg).Lookup`. -/
def Pkg.Lookup (p : Pkg) (name : String) : Sym := ⟨p.path, name⟩

/-- The method `(*types.Sym).Linksym`. -/
def Sym.Linksym (s : Sym) : LSym := ⟨s⟩

/-- A statement node: its operation and its position. -/
structure Stmt where
  op : Op
  pos : XPos
  deriving DecidableEq, Repr

/-- A reference to a function (`*ir.Func` used as a pointer): a declared
function is known by the symbol of its name, the collector `initTodo` has
none. -/
inductive FuncRef where
  | anon
  | named (nname : Sym)
  deriving DecidableEq, Repr

/-- A local declaration (`*ir.Name` in a `Dcl` list) with its owning function. -/
structure Name where
  sym : Sym
  curfn : Option FuncRef
  deriving DecidableEq, Repr

/-- A function (`*ir.Func`).  `dcl` is a Go slice whose nil-ness is tested by
`fninit`, so `none` is the nil slice and `some []` an empty non-nil one. -/
structure Func where
  nname : Option Sym
  pos : XPos
  dcl : Option (List Name)
  body : List Stmt
  deriving DecidableEq, Repr

/-- The pointer identity of a function. -/
def Func.ref (f : Func) : FuncRef :=
  match f.nname with
  | some s => FuncRef.named s
  | none => FuncRef.anon

/-- A node bound as the definition of a symbol (`Sym.Def`): operation, class,
symbol, type and, for the name of a declared function, the function
(`Name().Defn`). -/
structure Node where
  op : Op
  cls : Class
  sym : Sym
  typ : Option Kind
  defn : Option Func
  deriving DecidableEq, Repr

/-- One write into the data of a linker symbol: `WriteInt` or `WriteAddr`. -/
inductive Datum where
  | int (off : Nat) (siz : Nat) (v : Nat)
  | addr (off : Nat) (siz : Nat) (target : LSym) (xoff : Nat)
  deriving DecidableEq, Repr

/-- The package-level state `fninit` works on. `defs` holds the `Def` field of
the symbols (the first binding of a symbol is the current one), `data` the
writes into linker symbols in the order they were made, `globl` the symbols
declared with their size and flags. -/
structure State where
  renameinitgen : Int
  initTodo : Option Func
  sourceOrderImports : List Pkg
  LocalPkg : Pkg
  basePos : XPos
  Curfn : Option FuncRef
  xtop : List Func
  defs : List (Sym × Node)
  exportlist : List Node
  data : List (LSym × Datum)
  globl : List (LSym × Int × Nat)
  deriving DecidableEq, Repr

/-- The collaborators of `fninit` that are defined elsewhere in the compiler,
taken as parameters: the ordering pass `initOrder`, symbol resolution `resolve`,
the function constructor `dclfunc` (only the function it returns is used), the
pointer width of the target and the value of the flag `obj.NOPTR`. -/
structure Ext where
  initOrder : List Stmt → List Stmt
  resolve : Option Node → Option Node
  dclfunc : Sym → XPos → Func
  Widthptr : Nat
  NOPTR : Nat

/-- The two calls of `base.Fatalf` in `fninit`. -/
inductive Fatal where
  | badInittask (n : Node)
  | initTodoStillHasDeclarations
  deriving DecidableEq, Repr

/-- How a run of `fninit` ends, with the state at that moment and, once they
are complete, the local lists `deps` and `fns`. -/
inductive Result where
  | fatal (msg : Fatal) (st : State)
  | nilDeref (st : State)
  | returned (st : State) (deps fns : List LSym)
  | emitted (st : State) (deps fns : List LSym)
  deriving DecidableEq, Repr

/-- The state in which the run ended. -/
def Result.state : Result → State
  | .fatal _ st => st
  | .nilDeref st => st
  | .returned st _ _ => st
  | .emitted st _ _ => st

/-- The lists `deps` and `fns` of a run that reached line 97. -/
def Result.lists : Result → Option (List LSym × List LSym)
  | .fatal _ _ => none
  | .nilDeref _ => none
  | .returned _ deps fns => some (deps, fns)
  | .emitted _ deps fns => some (deps, fns)

/-- The field `Def` of a symbol. -/
def State.Def (st : State) (s : Sym) : Option Node := st.defs.lookup s

/-- The expression `ir.AsNode(s.Def).Name().Defn` of line 89: the function whose
name the symbol is bound to; `none` when a nil is dereferenced on the way. -/
def State.Defn (st : State) (s : Sym) : Option Func := (st.Def s).bind (fun n => n.defn)

/-- The function `lookup`: the symbol of a name in the package being compiled. -/
def State.lookup (st : State) (name : String) : Sym := st.LocalPkg.Lookup name

/-- Modelled from the spec: the decimal rendering of an `int`, which `lookupN`
(declared outside this file) appends to the prefix; a negative number carries a
minus sign. -/
def itoa : Int → String
  | Int.ofNat k => Nat.repr k
  | Int.negSucc k => "-" ++ Nat.repr (k + 1)

/-- The value an `int` expression takes: Go's `int` is 64 bits wide and its
arithmetic wraps around in two's complement. -/
def wrapInt (x : Int) : Int := (x + 2 ^ 63) % 2 ^ 64 - 2 ^ 63

/-- The function `lookupN`: the symbol named by a prefix and the decimal
rendering of an `int`. -/
def State.lookupN (st : State) (pfx : String) (n : Int) : Sym :=
  st.lookup (pfx ++ itoa n)

/-- The function `renameinit` (lines 24-28).  The counter `renameinitgen` is a
Go `int`: the increment of line 26 wraps around. -/
def renameinit (st : State) : Sym × State :=
  let s := st.lookupN "init." st.renameinitgen
  (s, { st with renameinitgen := wrapInt (st.renameinitgen + 1) })

/-- Go's `append(s, xs...)` on a slice whose nil-ness is kept: appending no
element gives the slice back. -/
def goAppend {α : Type} (s : Option (List α)) (xs : List α) : Option (List α) :=
  match xs with
  | [] => s
  | _ :: _ => some (s.getD [] ++ xs)

/-- The conversion `int32(x)` of a non-negative `int`: the low 32 bits, read in
two's complement. -/
def int32 (x : Nat) : Int :=
  let r : Nat := x % 2 ^ 32
  if r < 2 ^ 31 then (r : Int) else (r : Int) - 2 ^ 32

/-- Modelled from the spec: `NewName` is declared outside this file; it
allocates a name node for the symbol, of operation `ONAME`, with no class and
no type yet. -/
def NewName (s : Sym) : Node :=
  { op := Op.ONAME, cls := Class.Pxxx, sym := s, typ := none, defn := none }

/-- Modelled from the spec: `exportsym` is declared outside this file; it marks
the name as exported, here by adding it to the list of exported names. -/
def exportsym (st : State) (n : Node) : State :=
  { st with exportlist := st.exportlist ++ [n] }

/-- Modelled from the spec: `duintptr` is declared outside this file; it writes
a pointer-sized unsigned integer at the offset and returns the offset advanced
by the pointer width. -/
def duintptr (ext : Ext) (st : State) (s : LSym) (off : Nat) (v : Nat) : State × Nat :=
  ({ st with data := st.data ++ [(s, Datum.int off ext.Widthptr v)] }, off + ext.Widthptr)

/-- Modelled from the spec: `dsymptr` is declared outside this file; it writes a
pointer-sized relocation to the target symbol (plus an offset into it) at the
offset and returns the offset advanced by the pointer width. -/
def dsymptr (ext : Ext) (st : State) (s : LSym) (off : Nat) (x : LSym) (xoff : Nat) :
    State × Nat :=
  ({ st with data := st.data ++ [(s, Datum.addr off ext.Widthptr x xoff)] }, off + ext.Widthptr)

/-- Modelled from the spec: `ggloblsym` is declared outside this file; it
declares the total size of the symbol and its flags. -/
def ggloblsym (st : State) (s : LSym) (width : Int) (flags : Nat) : State :=
  { st with globl := st.globl ++ [(s, width, flags)] }

/-- Lines 46-55: the loop over `sourceOrderImports`, started with the `deps`
collected so far. -/
def findDeps (ext : Ext) (st : State) : List Pkg → List LSym → Except Fatal (List LSym)
  | [], deps => .ok deps
  | pkg :: rest, deps =>
    match ext.resolve (st.Def (pkg.Lookup ".inittask")) with
    | none => findDeps ext st rest deps
    | some n =>
      if n.op ≠ Op.ONAME ∨ n.cls ≠ Class.PEXTERN then
        .error (Fatal.badInittask n)
      else
        findDeps ext st rest (deps ++ [n.sym.Linksym])

/-- Lines 58-77: the function holding the initialization statements.  The result
is the state and `fns` after line 77, or the state at the nil dereference of
`initTodo` in line 62.  `funcbody`, `typecheckFunc` and `typecheckslice` leave
the modelled state as it is; `Curfn` ends as nil (line 74). -/
def makeInit (ext : Ext) (st : State) (nf : List Stmt) (fns : List LSym) :
    Except State (State × List LSym) :=
  match nf with
  | [] => .ok (st, fns)
  | first :: _ =>
    let st := { st with basePos := first.pos }
    let initializers := st.lookup "init"
    let fn := ext.dclfunc initializers st.basePos
    match st.initTodo with
    | none => .error st
    | some todo =>
      let moved := (todo.dcl.getD []).map (fun dcl => { dcl with curfn := some fn.ref })
      let fn := { fn with dcl := goAppend fn.dcl moved }
      let todo := { todo with dcl := none }
      let fn := { fn with body := nf }
      let st := { st with initTodo := some todo, Curfn := none, xtop := st.xtop ++ [fn] }
      .ok (st, fns ++ [initializers.Linksym])

/-- The test of line 91: the body is one statement and that statement is
`OEMPTY`. -/
def emptyBody (fn : Func) : Bool :=
  fn.body.length == 1 && (fn.body.head?.map (fun s => s.op)) == some Op.OEMPTY

/-- Lines 87-95: the loop over the issued `init.N` names; `k` iterations are
left and `i` is the loop variable, which runs from 0 up and stays below the
counter.  `none` is the nil dereference of line 89
on a symbol that is not the name of a declared function. -/
def recordInits (st : State) : Nat → Nat → List LSym → Option (List LSym)
  | 0, _, fns => some fns
  | k + 1, i, fns =>
    let s := st.lookupN "init." i
    match st.Defn s with
    | none => none
    | some fn =>
      if emptyBody fn then
        recordInits st k (i + 1) fns
      else
        recordInits st k (i + 1) (fns ++ [s.Linksym])

/-- Lines 113-118: one relocation per symbol of the list, in list order. -/
def writePtrs (ext : Ext) (lsym : LSym) : List LSym → State × Nat → State × Nat
  | [], acc => acc
  | d :: rest, acc => writePtrs ext lsym rest (dsymptr ext acc.1 lsym acc.2 d 0)

/-- Lines 102-121: the `.inittask` name is made, bound, exported, and the record
is written.  The conversions `uint64(len(deps))` and `uint64(len(fns))` keep the
value, a length being a non-negative `int`; `int32(ot)` does not. -/
def emitTask (ext : Ext) (st : State) (deps fns : List LSym) : State :=
  let sym := st.lookup ".inittask"
  let nn := NewName sym
  let nn := { nn with typ := some Kind.TUINT8 }
  let nn := { nn with cls := Class.PEXTERN }
  let st := { st with defs := (sym, nn) :: st.defs }
  let st := exportsym st nn
  let lsym := sym.Linksym
  let ot := 0
  let (st, ot) := duintptr ext st lsym ot 0
  let (st, ot) := duintptr ext st lsym ot deps.length
  let (st, ot) := duintptr ext st lsym ot fns.length
  let (st, ot) := writePtrs ext lsym deps (st, ot)
  let (st, ot) := writePtrs ext lsym fns (st, ot)
  ggloblsym st lsym (int32 ot) ext.NOPTR

/-- The function `fninit` (lines 39-122).  The loop of line 87 runs for
`i = 0, ..., renameinitgen - 1`, that is `renameinitgen.toNat` times: not at
all when the counter is not positive. -/
def fninit (ext : Ext) (st : State) (n : List Stmt) : Result :=
  let nf := ext.initOrder n
  match findDeps ext st st.sourceOrderImports [] with
  | .error msg => .fatal msg st
  | .ok deps =>
    match makeInit ext st nf [] with
    | .error st => .nilDeref st
    | .ok (st, fns) =>
      match st.initTodo with
      | none => .nilDeref st
      | some todo =>
        if todo.dcl.isSome then
          .fatal Fatal.initTodoStillHasDeclarations st
        else
          let st := { st with initTodo := none }
          match recordInits st st.renameinitgen.toNat 0 fns with
          | none => .nilDeref st
          | some fns =>
            if deps.length = 0 ∧ fns.length = 0 ∧ st.LocalPkg.name ≠ "main"
                ∧ st.LocalPkg.name ≠ "runtime" then
              .returned st deps fns
            else
              .emitted (emitTask ext st deps fns) deps fns

/-! ## What the claims speak about -/

/-- The init task of an imported package as the scan of line 47 sees it. -/
def taskOf (ext : Ext) (st : State) (pkg : Pkg) : Option Node :=
  ext.resolve (st.Def (pkg.Lookup ".inittask"))

/-- The check of line 51 passes: a name of class `PEXTERN`. -/
def goodTask (n : Node) : Prop := n.op = Op.ONAME ∧ n.cls = Class.PEXTERN

instance (n : Node) : Decidable (goodTask n) := by
  unfold goodTask; exact inferInstance

/-- The link symbol an import contributes to `deps`, if it has an init task. -/
def depOf (ext : Ext) (st : State) (pkg : Pkg) : Option LSym :=
  (taskOf ext st pkg).map (fun n => n.sym.Linksym)

/-- The link symbol the user init function `init.i` contributes to `fns`:
none when its body is a single `OEMPTY` (or the function is not declared). -/
def userFn (st : State) (i : Nat) : Option LSym :=
  match st.Defn (st.lookupN "init." i) with
  | some fn => if emptyBody fn then none else some (st.lookupN "init." i).Linksym
  | none => none

/-- The link symbol of the function that holds the initialization statements. -/
def initSym (st : State) : LSym := (st.lookup "init").Linksym

/-- The link symbol of the init task of the package being compiled. -/
def taskSym (st : State) : LSym := (st.lookup ".inittask").Linksym

/-- The list `deps` of the claims: the imports in source order, each one with
an init task replaced by the link symbol of that task, the others dropped. -/
def depsOf (ext : Ext) (st : State) : List LSym :=
  st.sourceOrderImports.filterMap (depOf ext st)

/-- The head of `fns`: the symbol `init` when there are initialization
statements, nothing otherwise. -/
def synthFns (st : State) (nf : List Stmt) : List LSym :=
  match nf with
  | [] => []
  | _ :: _ => [initSym st]

/-- The list `fns` of the claims: the symbol `init` if there are initialization
statements, then the symbols of `init.0`, `init.1`, ... in issuance order
without those whose body is a single `OEMPTY`. -/
def fnsOf (ext : Ext) (st : State) (n : List Stmt) : List LSym :=
  synthFns st (ext.initOrder n) ++ (List.range st.renameinitgen.toNat).filterMap (userFn st)

/-- The condition of line 97. -/
def shortCircuit (st : State) (deps fns : List LSym) : Prop :=
  deps.length = 0 ∧ fns.length = 0 ∧ st.LocalPkg.name ≠ "main" ∧ st.LocalPkg.name ≠ "runtime"

instance (st : State) (deps fns : List LSym) : Decidable (shortCircuit st deps fns) := by
  unfold shortCircuit; exact inferInstance

/-- The relocations of a list of symbols laid out one pointer after the other,
the first one at the word of index `k`: each has offset zero into its target. -/
def relocsFrom (ext : Ext) (lsym : LSym) : Nat → List LSym → List (LSym × Datum)
  | _, [] => []
  | k, x :: xs =>
    (lsym, Datum.addr (k * ext.Widthptr) ext.Widthptr x 0) :: relocsFrom ext lsym (k + 1) xs

/-- The layout of an init task as the runtime reads it: the state word, the
two counts, the relocations of `deps`, the relocations of `fns`. -/
def recordData (ext : Ext) (lsym : LSym) (deps fns : List LSym) : List (LSym × Datum) :=
  [(lsym, Datum.int (0 * ext.Widthptr) ext.Widthptr 0),
   (lsym, Datum.int (1 * ext.Widthptr) ext.Widthptr deps.length),
   (lsym, Datum.int (2 * ext.Widthptr) ext.Widthptr fns.length)]
  ++ relocsFrom ext lsym 3 deps ++ relocsFrom ext lsym (3 + deps.length) fns

/-- The name node `fninit` binds to `.inittask` (lines 103-105). -/
def taskNode (st : State) : Node :=
  { op := Op.ONAME, cls := Class.PEXTERN, sym := st.lookup ".inittask",
    typ := some Kind.TUINT8, defn := none }

/-! ## Sample inputs -/

/-- Collaborators of a 64-bit target: statements already in order, symbols
already resolved, `dclfunc` returning a fresh function without declarations. -/
def ext64 : Ext :=
  { initOrder := fun n => n
    resolve := fun n => n
    dclfunc := fun s p => { nname := some s, pos := p, dcl := none, body := [] }
    Widthptr := 8
    NOPTR := 16 }

/-- A declared function with the given name and body. -/
def declaredFunc (s : Sym) (body : List Stmt) : Func :=
  { nname := some s, pos := 0, dcl := none, body := body }

/-- The name of a declared function with the given body, as the definition of
its symbol. -/
def funcNode (s : Sym) (body : List Stmt) : Node :=
  { op := Op.ONAME, cls := Class.POTHER 0, sym := s, typ := none,
    defn := some (declaredFunc s body) }

/-- The init task of an imported package, as `fninit` left it there. -/
def importTask (path : String) : Sym × Node :=
  (⟨path, ".inittask"⟩,
   { op := Op.ONAME, cls := Class.PEXTERN, sym := ⟨path, ".inittask"⟩,
     typ := some Kind.TUINT8, defn := none })

/-- An empty compilation state for the package of the given path and name. -/
def emptyState (path name : String) : State :=
  { renameinitgen := 0
    initTodo := some { nname := none, pos := 0, dcl := none, body := [] }
    sourceOrderImports := []
    LocalPkg := ⟨path, name⟩
    basePos := 0
    Curfn := none
    xtop := []
    defs := []
    exportlist := []
    data := []
    globl := [] }

/-- A library package `lib` that imports a package without init task and
declares one `init` function whose body is a single `OEMPTY`. -/
def stLib : State :=
  { emptyState "example.com/lib" "lib" with
    renameinitgen := 1
    sourceOrderImports := [⟨"example.com/a", "a"⟩]
    defs := [(⟨"example.com/lib", "init.0"⟩,
              funcNode ⟨"example.com/lib", "init.0"⟩ [⟨Op.OEMPTY, 7⟩])] }

/-- A definition of `.inittask` that is a name but not of class `PEXTERN`. -/
def badTask : Node :=
  { op := Op.ONAME, cls := Class.POTHER 3, sym := ⟨"example.com/a", ".inittask"⟩,
    typ := some Kind.TUINT8, defn := none }

/-- A package `main` that imports a package whose `.inittask` is `badTask`. -/
def stMainBad : State :=
  { emptyState "main" "main" with
    sourceOrderImports := [⟨"example.com/a", "a"⟩]
    defs := [(⟨"example.com/a", ".inittask"⟩, badTask)] }

/-- A library that imports `a`, `b` and `c` in this order; `a` and `c` have an
init task, `b` has none. -/
def stABC : State :=
  { emptyState "example.com/lib" "lib" with
    sourceOrderImports := [⟨"example.com/a", "a"⟩, ⟨"example.com/b", "b"⟩, ⟨"example.com/c", "c"⟩]
    defs := [importTask "example.com/c", importTask "example.com/a"] }

/-- A library with two user init functions: `init.0` holds one call, the body
of `init.1` is a single `OEMPTY`. -/
def stTwoInits : State :=
  { emptyState "example.com/lib" "lib" with
    renameinitgen := 2
    defs := [(⟨"example.com/lib", "init.0"⟩,
              funcNode ⟨"example.com/lib", "init.0"⟩ [⟨Op.OTHER 1, 11⟩]),
             (⟨"example.com/lib", "init.1"⟩,
              funcNode ⟨"example.com/lib", "init.1"⟩ [⟨Op.OEMPTY, 12⟩])] }

/-- A definition of `.inittask` that is not a name at all. -/
def notAName : Node :=
  { op := Op.OTHER 5, cls := Class.Pxxx, sym := ⟨"example.com/b", ".inittask"⟩,
    typ := none, defn := none }

/-- A library that imports `a`, which has an init task, and then `b`, whose
`.inittask` is `notAName`. -/
def stBadSecond : State :=
  { emptyState "example.com/lib" "lib" with
    sourceOrderImports := [⟨"example.com/a", "a"⟩, ⟨"example.com/b", "b"⟩]
    defs := [importTask "example.com/a", (⟨"example.com/b", ".inittask"⟩, notAName)] }

/-- The initialization statements of the samples: one assignment. -/
def oneStmt : List Stmt := [⟨Op.OTHER 2, 3⟩]

/-- A library whose three user init functions all have a single `OEMPTY` as
body. -/
def stAllEmpty : State :=
  { emptyState "example.com/lib" "lib" with
    renameinitgen := 3
    defs := [(⟨"example.com/lib", "init.0"⟩,
              funcNode ⟨"example.com/lib", "init.0"⟩ [⟨Op.OEMPTY, 11⟩]),
             (⟨"example.com/lib", "init.1"⟩,
              funcNode ⟨"example.com/lib", "init.1"⟩ [⟨Op.OEMPTY, 12⟩]),
             (⟨"example.com/lib", "init.2"⟩,
              funcNode ⟨"example.com/lib", "init.2"⟩ [⟨Op.OEMPTY, 13⟩])] }

/-- A library that imports the package `a`, which has an init task, `2 ^ 28`
times. -/
def stHuge : State :=
  { emptyState "example.com/lib" "lib" with
    sourceOrderImports := List.replicate (2 ^ 28) ⟨"example.com/a", "a"⟩
    defs := [importTask "example.com/a"] }

/-- Two temporaries collected in `initTodo` while the initialization statements
were type-checked. -/
def twoTemps : List Name :=
  [⟨⟨"example.com/lib", ".autotmp_1"⟩, some FuncRef.anon⟩,
   ⟨⟨"example.com/lib", ".autotmp_2"⟩, some FuncRef.anon⟩]

/-- The collector `initTodo` holding the two temporaries. -/
def pendingTemps : Func :=
  { nname := none, pos := 0, dcl := some twoTemps, body := [] }

/-- A library with two pending temporaries and no user init function. -/
def stTemps : State :=
  { emptyState "example.com/lib" "lib" with initTodo := some pendingTemps }

/-- The package `main` with two pending temporaries, no initialization
statement and one user init function. -/
def stMainTemps : State :=
  { emptyState "main" "main" with
    renameinitgen := 1
    initTodo := some pendingTemps
    defs := [(⟨"main", "init.0"⟩, funcNode ⟨"main", "init.0"⟩ [⟨Op.OTHER 1, 11⟩])] }

/-- The target of a relocation. -/
def Datum.target : Datum → Option LSym
  | .int _ _ _ => none
  | .addr _ _ x _ => some x

/-- The number a list of decimal digits stands for, read after the number `a`. -/
def digitsVal (cs : List Char) (a : Nat) : Nat :=
  cs.foldl (fun a c => 10 * a + (c.toNat - 48)) a

/-- A library with three user init functions whose bodies are empty, two
`OEMPTY` statements, and a single `OEMPTY`. -/
def stBodies : State :=
  { emptyState "example.com/lib" "lib" with
    renameinitgen := 3
    defs := [(⟨"example.com/lib", "init.0"⟩, funcNode ⟨"example.com/lib", "init.0"⟩ []),
             (⟨"example.com/lib", "init.1"⟩,
              funcNode ⟨"example.com/lib", "init.1"⟩ [⟨Op.OEMPTY, 12⟩, ⟨Op.OEMPTY, 13⟩]),
             (⟨"example.com/lib", "init.2"⟩,
              funcNode ⟨"example.com/lib", "init.2"⟩ [⟨Op.OEMPTY, 14⟩])] }

/-- A library whose import list holds the library itself and the package `a`,
which has an init task. -/
def stSelf : State :=
  { emptyState "example.com/lib" "lib" with
    sourceOrderImports := [⟨"example.com/lib", "lib"⟩, ⟨"example.com/a", "a"⟩]
    defs := [importTask "example.com/a"] }

/-- A package that imports the library of `stABC` and sees the symbol table
the compilation of that library left. -/
def stUser : State :=
  { emptyState "example.com/user" "user" with
    sourceOrderImports := [⟨"example.com/lib", "lib"⟩]
    defs := (fninit ext64 stABC []).state.defs }

/-- A definition of `.inittask` that is a name of class `PEXTERN` but not of
the type `uint8` the compiler gives an init task. -/
def wrongTypeTask : Node :=
  { op := Op.ONAME, cls := Class.PEXTERN, sym := ⟨"example.com/a", ".inittask"⟩,
    typ := some (Kind.TOTHER 7), defn := none }

/-- A library that imports a package whose `.inittask` is `wrongTypeTask`. -/
def stWrongType : State :=
  { emptyState "example.com/lib" "lib" with
    sourceOrderImports := [⟨"example.com/a", "a"⟩]
    defs := [(⟨"example.com/a", ".inittask"⟩, wrongTypeTask)] }

/-- The collector `initTodo` with a list of declarations that is not nil and
holds no declaration. -/
def drainedTodo : Func :=
  { nname := none, pos := 0, dcl := some [], body := [] }

/-- A library without imports, statements and init functions whose collector
is `drainedTodo`. -/
def stDrained : State :=
  { emptyState "example.com/lib" "lib" with initTodo := some drainedTodo }

/-- A library whose counter of init functions is the largest `int`. -/
def stMaxInt : State :=
  { emptyState "example.com/lib" "lib" with renameinitgen := 9223372036854775807 }

/-- The state after `k` calls of `renameinit`. -/
def renameinitIter : Nat → State → State
  | 0, st => st
  | k + 1, st => renameinitIter k (renameinit st).2

/-- The state `s` differs from `st` in nothing that concerns symbols or linker
output: same counter, imports, package, symbol definitions, exported names,
written data and declared symbols. -/
def Untouched (st s : State) : Prop :=
  s.renameinitgen = st.renameinitgen ∧ s.sourceOrderImports = st.sourceOrderImports ∧
  s.LocalPkg = st.LocalPkg ∧ s.defs = st.defs ∧ s.exportlist = st.exportlist ∧
  s.data = st.data ∧ s.globl = st.globl

/-- The run produced an init task: it ended after the record was written. -/
def Result.isEmitted : Result → Bool
  | .emitted _ _ _ => true
  | _ => false

/-- The run was aborted: by `base.Fatalf` or by a nil dereference. -/
def Result.isAbort : Result → Bool
  | .fatal _ _ => true
  | .nilDeref _ => true
  | _ => false

/-! ## The names `init.N` -/

theorem digitChar_val : ∀ k, k < 10 → (Nat.digitChar k).toNat - 48 = k := by decide

theorem toDigitsCore_val : ∀ (fuel n : Nat) (ds : List Char), n < fuel →
    digitsVal (Nat.toDigitsCore 10 fuel n ds) 0 = digitsVal ds n := by
  intro fuel
  induction fuel with
  | zero => intro n ds h; omega
  | succ fuel ih =>
    intro n ds h
    simp only [Nat.toDigitsCore]
    by_cases h0 : n / 10 = 0
    · rw [if_pos h0]
      have hn : n < 10 := by omega
      simp only [digitsVal, List.foldl_cons]
      rw [Nat.mod_eq_of_lt hn, digitChar_val n hn]
      simp
    · rw [if_neg h0]
      have hlt : n / 10 < fuel := by omega
      rw [ih (n / 10) _ hlt]
      simp only [digitsVal, List.foldl_cons]
      rw [digitChar_val (n % 10) (Nat.mod_lt _ (by norm_num))]
      congr 1
      omega

theorem repr_injective (a b : Nat) (h : Nat.repr a = Nat.repr b) : a = b := by
  simp only [Nat.repr, Nat.toDigits, List.asString] at h
  have h2 : Nat.toDigitsCore 10 (a + 1) a [] = Nat.toDigitsCore 10 (b + 1) b [] := by
    injection h
  have ha := toDigitsCore_val (a + 1) a [] (by omega)
  have hb := toDigitsCore_val (b + 1) b [] (by omega)
  rw [h2, hb] at ha
  simpa [digitsVal] using ha.symm

/-- Every character of a decimal rendering is a digit or was there before. -/
theorem toDigitsCore_digit : ∀ (fuel n : Nat) (ds : List Char) (c : Char),
    c ∈ Nat.toDigitsCore 10 fuel n ds → c ∈ ds ∨ ∃ d, d < 10 ∧ c = Nat.digitChar d := by
  intro fuel
  induction fuel with
  | zero => intro n ds c h; exact Or.inl h
  | succ fuel ih =>
    intro n ds c h
    simp only [Nat.toDigitsCore] at h
    by_cases h0 : n / 10 = 0
    · rw [if_pos h0] at h
      rcases List.mem_cons.1 h with h | h
      · exact Or.inr ⟨n % 10, Nat.mod_lt _ (by norm_num), h⟩
      · exact Or.inl h
    · rw [if_neg h0] at h
      rcases ih _ _ _ h with h | h
      · rcases List.mem_cons.1 h with h | h
        · exact Or.inr ⟨n % 10, Nat.mod_lt _ (by norm_num), h⟩
        · exact Or.inl h
      · exact Or.inr h

theorem digitChar_ne_minus : ∀ d, d < 10 → Nat.digitChar d ≠ '-' := by decide

theorem repr_ne_minus (a : Nat) (x : String) : Nat.repr a ≠ "-" ++ x := by
  intro h
  have hd := congrArg String.data h
  simp only [Nat.repr, Nat.toDigits, List.asString, String.data_append] at hd
  have hmem : '-' ∈ Nat.toDigitsCore 10 (a + 1) a [] := by
    rw [hd]
    exact List.mem_cons_self _ _
  rcases toDigitsCore_digit _ _ _ _ hmem with h1 | ⟨d, hd10, hc⟩
  · cases h1
  · exact digitChar_ne_minus d hd10 hc.symm

theorem itoa_natCast (i : Nat) : itoa (i : Int) = Nat.repr i := rfl

theorem itoa_injective (a b : Int) (h : itoa a = itoa b) : a = b := by
  cases a with
  | ofNat a =>
    cases b with
    | ofNat b =>
      have := repr_injective a b h
      rw [this]
    | negSucc b => exact absurd h (repr_ne_minus a _)
  | negSucc a =>
    cases b with
    | ofNat b => exact absurd h.symm (repr_ne_minus b _)
    | negSucc b =>
      have hd := congrArg String.data h
      simp only [itoa, String.data_append] at hd
      have := repr_injective _ _ (String.ext (List.append_cancel_left hd))
      have hab : a = b := by omega
      rw [hab]

theorem initName_injective (a b : Int) (h : "init." ++ itoa a = "init." ++ itoa b) :
    a = b := by
  apply itoa_injective
  have := congrArg String.data h
  simp only [String.data_append] at this
  exact String.ext (List.append_cancel_left this)

theorem initName_ne (a : Int) : "init." ++ itoa a ≠ "init" := by
  intro h
  have := congrArg String.length h
  simp [String.length_append] at this
  have h5 : "init.".length = 5 := by decide
  have h4 : "init".length = 4 := by decide
  omega

/-! ## The dependency scan -/

theorem findDeps_ok (ext : Ext) (st : State) (imports : List Pkg) :
    ∀ deps : List LSym,
      (∀ pkg ∈ imports, ∀ n, taskOf ext st pkg = some n → goodTask n) →
      findDeps ext st imports deps = .ok (deps ++ imports.filterMap (depOf ext st)) := by
  induction imports with
  | nil => intro deps _; simp [findDeps]
  | cons pkg rest ih =>
    intro deps h
    have hrest : ∀ q ∈ rest, ∀ n, taskOf ext st q = some n → goodTask n :=
      fun q hq n hn => h q (List.mem_cons_of_mem _ hq) n hn
    cases hp : taskOf ext st pkg with
    | none =>
      have hp2 : ext.resolve (st.Def (pkg.Lookup ".inittask")) = none := hp
      have hd : depOf ext st pkg = none := by simp [depOf, hp]
      rw [findDeps, hp2]
      simp only [List.filterMap_cons, hd]
      exact ih deps hrest
    | some n =>
      have hp2 : ext.resolve (st.Def (pkg.Lookup ".inittask")) = some n := hp
      have hd : depOf ext st pkg = some n.sym.Linksym := by simp [depOf, hp]
      have hg := h pkg (List.mem_cons_self _ _) n hp
      have hc : ¬ (n.op ≠ Op.ONAME ∨ n.cls ≠ Class.PEXTERN) := by
        rintro (h1 | h1)
        · exact h1 hg.1
        · exact h1 hg.2
      rw [findDeps, hp2]
      simp only [hc, if_false, List.filterMap_cons, hd]
      rw [ih _ hrest, List.append_assoc]
      rfl

theorem findDeps_ok_inv (ext : Ext) (st : State) (imports : List Pkg) :
    ∀ deps out : List LSym, findDeps ext st imports deps = .ok out →
      (∀ pkg ∈ imports, ∀ n, taskOf ext st pkg = some n → goodTask n) := by
  induction imports with
  | nil => intro _ _ _ pkg hpkg; cases hpkg
  | cons p rest ih =>
    intro deps out h
    cases hp : taskOf ext st p with
    | none =>
      have hp2 : ext.resolve (st.Def (p.Lookup ".inittask")) = none := hp
      rw [findDeps, hp2] at h
      intro pkg hpkg n hn
      rcases List.mem_cons.1 hpkg with rfl | hmem
      · rw [hp] at hn; cases hn
      · exact ih _ _ h pkg hmem n hn
    | some m =>
      have hp2 : ext.resolve (st.Def (p.Lookup ".inittask")) = some m := hp
      rw [findDeps, hp2] at h
      by_cases hc : m.op ≠ Op.ONAME ∨ m.cls ≠ Class.PEXTERN
      · simp [hc] at h
      · simp only [hc, if_false] at h
        intro pkg hpkg n hn
        rcases List.mem_cons.1 hpkg with rfl | hmem
        · rw [hp] at hn
          cases hn
          constructor
          · by_contra h1; exact hc (Or.inl h1)
          · by_contra h1; exact hc (Or.inr h1)
        · exact ih _ _ h pkg hmem n hn

theorem findDeps_bad (ext : Ext) (st : State) (imports : List Pkg) :
    ∀ deps : List LSym,
      (∃ pkg ∈ imports, ∃ n, taskOf ext st pkg = some n ∧ ¬ goodTask n) →
      ∃ pkg ∈ imports, ∃ n, taskOf ext st pkg = some n ∧ ¬ goodTask n ∧
        findDeps ext st imports deps = .error (Fatal.badInittask n) := by
  induction imports with
  | nil => rintro _ ⟨pkg, hpkg, _⟩; cases hpkg
  | cons p rest ih =>
    rintro deps ⟨pkg, hpkg, n, hn, hbad⟩
    cases hp : taskOf ext st p with
    | none =>
      have hp2 : ext.resolve (st.Def (p.Lookup ".inittask")) = none := hp
      rcases List.mem_cons.1 hpkg with rfl | hmem
      · rw [hp] at hn; cases hn
      · obtain ⟨q, hq, m, hm, hmb, he⟩ := ih deps ⟨pkg, hmem, n, hn, hbad⟩
        refine ⟨q, List.mem_cons_of_mem _ hq, m, hm, hmb, ?_⟩
        rw [findDeps, hp2]
        exact he
    | some m =>
      have hp2 : ext.resolve (st.Def (p.Lookup ".inittask")) = some m := hp
      by_cases hc : m.op ≠ Op.ONAME ∨ m.cls ≠ Class.PEXTERN
      · refine ⟨p, List.mem_cons_self _ _, m, hp, ?_, ?_⟩
        · rintro ⟨h1, h2⟩
          rcases hc with h | h
          · exact h h1
          · exact h h2
        · rw [findDeps, hp2]
          simp [hc]
      · rcases List.mem_cons.1 hpkg with rfl | hmem
        · rw [hp] at hn
          cases hn
          exfalso
          apply hbad
          constructor
          · by_contra h1; exact hc (Or.inl h1)
          · by_contra h1; exact hc (Or.inr h1)
        · obtain ⟨q, hq, k, hk, hkb, he⟩ :=
            ih (deps ++ [m.sym.Linksym]) ⟨pkg, hmem, n, hn, hbad⟩
          refine ⟨q, List.mem_cons_of_mem _ hq, k, hk, hkb, ?_⟩
          rw [findDeps, hp2]
          simp only [hc, if_false]
          exact he

/-! ## The loop over the user init functions -/

theorem recordInits_some (st : State) :
    ∀ (k i : Nat) (fns out : List LSym), recordInits st k i fns = some out →
      out = fns ++ (List.range' i k).filterMap (userFn st) := by
  intro k
  induction k with
  | zero => intro i fns out h; simp [recordInits] at h; simp [h]
  | succ k ih =>
    intro i fns out h
    rw [recordInits] at h
    cases hd : st.Defn (st.lookupN "init." i) with
    | none => simp [hd] at h
    | some fn =>
      simp only [hd] at h
      by_cases he : emptyBody fn = true
      · simp only [he, if_true] at h
        have hu : userFn st i = none := by simp [userFn, hd, he]
        rw [ih _ _ _ h]
        simp [List.range'_succ, hu]
      · rw [if_neg he] at h
        have hu : userFn st i = some (st.lookupN "init." i).Linksym := by
          simp [userFn, hd, he]
        rw [ih _ _ _ h]
        simp [List.range'_succ, hu]

theorem recordInits_declared (st : State) :
    ∀ (k i : Nat) (fns : List LSym),
      (∀ j, i ≤ j → j < i + k → ∃ fn, st.Defn (st.lookupN "init." j) = some fn) →
      recordInits st k i fns = some (fns ++ (List.range' i k).filterMap (userFn st)) := by
  intro k
  induction k with
  | zero => intro i fns _; simp [recordInits]
  | succ k ih =>
    intro i fns h
    obtain ⟨fn, hd⟩ := h i (le_refl _) (by omega)
    have hrest : ∀ j, i + 1 ≤ j → j < i + 1 + k →
        ∃ fn, st.Defn (st.lookupN "init." j) = some fn :=
      fun j h1 h2 => h j (by omega) (by omega)
    rw [recordInits]
    simp only [hd]
    by_cases he : emptyBody fn = true
    · simp only [he, if_true]
      have hu : userFn st i = none := by simp [userFn, hd, he]
      rw [ih _ _ hrest]
      simp [List.range'_succ, hu]
    · rw [if_neg he]
      have hu : userFn st i = some (st.lookupN "init." i).Linksym := by
        simp [userFn, hd, he]
      rw [ih _ _ hrest]
      simp [List.range'_succ, hu]

/-! ## The function for the initialization statements -/

theorem makeInit_untouched (ext : Ext) (st : State) (nf : List Stmt) (fns : List LSym) :
    (∀ s, makeInit ext st nf fns = .error s → Untouched st s) ∧
    (∀ s out, makeInit ext st nf fns = .ok (s, out) →
      Untouched st s ∧ out = fns ++ synthFns st nf) := by
  cases nf with
  | nil =>
    constructor
    · intro s h; simp [makeInit] at h
    · intro s out h
      simp only [makeInit, Except.ok.injEq, Prod.mk.injEq] at h
      rw [← h.1, ← h.2]
      exact ⟨⟨rfl, rfl, rfl, rfl, rfl, rfl, rfl⟩, by simp [synthFns]⟩
  | cons first rest =>
    cases ht : st.initTodo with
    | none =>
      constructor
      · intro s h
        simp only [makeInit, ht, Except.error.injEq] at h
        rw [← h]
        exact ⟨rfl, rfl, rfl, rfl, rfl, rfl, rfl⟩
      · intro s out h; simp [makeInit, ht] at h
    | some todo =>
      constructor
      · intro s h; simp [makeInit, ht] at h
      · intro s out h
        simp only [makeInit, ht, Except.ok.injEq, Prod.mk.injEq] at h
        rw [← h.1, ← h.2]
        exact ⟨⟨rfl, rfl, rfl, rfl, rfl, rfl, rfl⟩, rfl⟩

theorem makeInit_ok (ext : Ext) (st : State) (nf : List Stmt) (fns : List LSym) (todo : Func)
    (htodo : st.initTodo = some todo) (hdcl : nf = [] → todo.dcl = none) :
    ∃ s out, makeInit ext st nf fns = .ok (s, out) ∧
      ∃ t, s.initTodo = some t ∧ t.dcl = none := by
  cases nf with
  | nil => exact ⟨st, fns, rfl, todo, htodo, hdcl rfl⟩
  | cons first rest =>
    simp only [makeInit, htodo]
    exact ⟨_, _, rfl, _, rfl, rfl⟩

theorem recordInits_congr (st s : State) (hd : s.defs = st.defs)
    (hp : s.LocalPkg = st.LocalPkg) :
    ∀ (k i : Nat) (fns : List LSym), recordInits s k i fns = recordInits st k i fns := by
  intro k
  induction k with
  | zero => intro i fns; rfl
  | succ k ih =>
    intro i fns
    have h1 : s.lookupN "init." i = st.lookupN "init." i := by
      simp [State.lookupN, State.lookup, hp]
    have h2 : s.Defn (st.lookupN "init." i) = st.Defn (st.lookupN "init." i) := by
      simp [State.Defn, State.Def, hd]
    rw [recordInits, recordInits, h1, h2]
    cases st.Defn (st.lookupN "init." i) with
    | none => rfl
    | some fn => simp only [ih]

theorem userFn_congr (st s : State) (h : Untouched st s) : userFn s = userFn st := by
  obtain ⟨_, _, hp, hd, _⟩ := h
  funext i
  simp [userFn, State.Defn, State.Def, State.lookupN, State.lookup, hp, hd]

/-! ## The ways a run of `fninit` can end -/

/-- Every run of `fninit` ends in one of five ways: the fatal error of line 52
in the entry state; or, after a scan in which every init task found passed the
check, a nil dereference, the fatal error of line 82, the return of line 98 or
the record of lines 102-121, each in a state that differs from the entry state
in nothing that concerns symbols or linker output (before the record is
written), with `deps` and `fns` the lists `depsOf` and `fnsOf`. -/
theorem fninit_inv (ext : Ext) (st : State) (n : List Stmt) :
    (∃ pkg ∈ st.sourceOrderImports, ∃ m, taskOf ext st pkg = some m ∧ ¬ goodTask m ∧
        fninit ext st n = .fatal (Fatal.badInittask m) st) ∨
    ((∀ pkg ∈ st.sourceOrderImports, ∀ m, taskOf ext st pkg = some m → goodTask m) ∧
      ∃ s, Untouched st s ∧
        (fninit ext st n = .nilDeref s ∨
         fninit ext st n = .fatal Fatal.initTodoStillHasDeclarations s ∨
         (s.initTodo = none ∧ shortCircuit st (depsOf ext st) (fnsOf ext st n) ∧
            fninit ext st n = .returned s (depsOf ext st) (fnsOf ext st n)) ∨
         (s.initTodo = none ∧ ¬ shortCircuit st (depsOf ext st) (fnsOf ext st n) ∧
            fninit ext st n =
              .emitted (emitTask ext s (depsOf ext st) (fnsOf ext st n))
                (depsOf ext st) (fnsOf ext st n)))) := by
  by_cases hgood : ∀ pkg ∈ st.sourceOrderImports, ∀ m, taskOf ext st pkg = some m → goodTask m
  · right
    refine ⟨hgood, ?_⟩
    have hdeps := findDeps_ok ext st st.sourceOrderImports [] hgood
    rw [List.nil_append] at hdeps
    unfold fninit
    simp only [hdeps]
    obtain ⟨herr, hok⟩ := makeInit_untouched ext st (ext.initOrder n) []
    cases hm : makeInit ext st (ext.initOrder n) [] with
    | error s => exact ⟨s, herr s hm, Or.inl rfl⟩
    | ok p =>
      obtain ⟨s, out⟩ := p
      obtain ⟨hu, hout⟩ := hok s out hm
      rw [List.nil_append] at hout
      simp only
      cases ht : s.initTodo with
      | none => exact ⟨s, hu, Or.inl rfl⟩
      | some todo =>
        simp only
        by_cases hdcl : todo.dcl.isSome = true
        · rw [if_pos hdcl]
          exact ⟨s, hu, Or.inr (Or.inl rfl)⟩
        · rw [if_neg hdcl]
          have hu1 : Untouched st { s with initTodo := none } := hu
          cases hr : recordInits { s with initTodo := none } s.renameinitgen.toNat 0 out with
          | none => exact ⟨{ s with initTodo := none }, hu1, Or.inl rfl⟩
          | some fns =>
            have hfns := recordInits_some _ _ _ _ _ hr
            rw [userFn_congr st _ hu1, ← List.range_eq_range', hu.1, hout] at hfns
            have hfns2 : fns = fnsOf ext st n := hfns
            have hname : s.LocalPkg = st.LocalPkg := hu.2.2.1
            refine ⟨{ s with initTodo := none }, hu1, Or.inr (Or.inr ?_)⟩
            by_cases hs : shortCircuit st (depsOf ext st) (fnsOf ext st n)
            · left
              refine ⟨rfl, hs, ?_⟩
              have hs2 : (List.filterMap (depOf ext st) st.sourceOrderImports).length = 0 ∧
                  fns.length = 0 ∧ s.LocalPkg.name ≠ "main" ∧ s.LocalPkg.name ≠ "runtime" := by
                rw [hfns2, hname]; exact hs
              simp only
              rw [if_pos hs2, hfns2]
              rfl
            · right
              refine ⟨rfl, hs, ?_⟩
              have hs2 : ¬ ((List.filterMap (depOf ext st) st.sourceOrderImports).length = 0 ∧
                  fns.length = 0 ∧ s.LocalPkg.name ≠ "main" ∧ s.LocalPkg.name ≠ "runtime") := by
                rw [hfns2, hname]; exact hs
              simp only
              rw [if_neg hs2, hfns2]
              rfl
  · left
    have hbad : ∃ pkg ∈ st.sourceOrderImports, ∃ m, taskOf ext st pkg = some m ∧ ¬ goodTask m := by
      by_contra hcon
      apply hgood
      intro pkg hpkg m hm
      by_contra hg
      exact hcon ⟨pkg, hpkg, m, hm, hg⟩
    obtain ⟨pkg, hpkg, m, hm, hmb, he⟩ := findDeps_bad ext st st.sourceOrderImports [] hbad
    refine ⟨pkg, hpkg, m, hm, hmb, ?_⟩
    unfold fninit
    simp only [he]

/-! ## The lists `deps` and `fns` -/

theorem depsOf_eq_nil (ext : Ext) (st : State)
    (h : ∀ pkg ∈ st.sourceOrderImports, taskOf ext st pkg = none) : depsOf ext st = [] := by
  unfold depsOf
  rw [List.filterMap_eq_nil_iff]
  intro pkg hpkg
  simp [depOf, h pkg hpkg]

theorem userFns_eq_nil (st : State)
    (h : ∀ i < st.renameinitgen.toNat, ∃ fn, st.Defn (st.lookupN "init." i) = some fn ∧
      emptyBody fn = true) :
    (List.range st.renameinitgen.toNat).filterMap (userFn st) = [] := by
  rw [List.filterMap_eq_nil_iff]
  intro i hi
  obtain ⟨fn, hfn, he⟩ := h i (List.mem_range.1 hi)
  simp [userFn, hfn, he]

/-! ## The record -/

theorem writePtrs_eq (ext : Ext) (lsym : LSym) (xs : List LSym) :
    ∀ (s : State) (k : Nat),
      writePtrs ext lsym xs (s, k * ext.Widthptr) =
        ({ s with data := s.data ++ relocsFrom ext lsym k xs },
          (k + xs.length) * ext.Widthptr) := by
  induction xs with
  | nil => intro s k; simp [writePtrs, relocsFrom]
  | cons x rest ih =>
    intro s k
    have hk : k * ext.Widthptr + ext.Widthptr = (k + 1) * ext.Widthptr := by ring
    simp only [writePtrs, dsymptr, hk]
    rw [ih]
    simp only [relocsFrom, List.length_cons, List.append_assoc, List.singleton_append]
    have : k + 1 + rest.length = k + (rest.length + 1) := by omega
    rw [this]

theorem emitTask_eq (ext : Ext) (s : State) (deps fns : List LSym) :
    emitTask ext s deps fns =
      { s with
        defs := (s.lookup ".inittask", taskNode s) :: s.defs
        exportlist := s.exportlist ++ [taskNode s]
        data := s.data ++ recordData ext (taskSym s) deps fns
        globl := s.globl ++
          [(taskSym s, int32 ((3 + deps.length + fns.length) * ext.Widthptr), ext.NOPTR)] } := by
  have h1 : (0 : Nat) + ext.Widthptr = 1 * ext.Widthptr := by ring
  have h2 : 1 * ext.Widthptr + ext.Widthptr = 2 * ext.Widthptr := by ring
  have h3 : 2 * ext.Widthptr + ext.Widthptr = 3 * ext.Widthptr := by ring
  have h0 : (0 : Nat) = 0 * ext.Widthptr := by ring
  simp only [emitTask, duintptr, exportsym, ggloblsym, NewName]
  rw [h1, h2, h3, writePtrs_eq, writePtrs_eq]
  simp only [recordData, taskNode, taskSym, ← h0, List.append_assoc, List.singleton_append,
    List.cons_append, List.nil_append, State.lookup]

/-! ## Claims -/

/-- C1: a package no import of which has an init task, without initialization
statements, whose user init functions all have a single `OEMPTY` as body, and
whose name is neither `main` nor `runtime`, gets no init task: the run ends
before line 102, so `.inittask` is not bound, nothing is exported, no byte is
written and no symbol is declared; with nothing left in `initTodo` the run ends
with the `return` of line 98, both lists empty. -/
theorem fninit_nothing_to_do (ext : Ext) (st : State) (n : List Stmt)
    (himp : ∀ pkg ∈ st.sourceOrderImports, taskOf ext st pkg = none)
    (hnf : ext.initOrder n = [])
    (hfns : ∀ i < st.renameinitgen.toNat, ∃ fn, st.Defn (st.lookupN "init." i) = some fn ∧
      emptyBody fn = true)
    (hmain : st.LocalPkg.name ≠ "main") (hrt : st.LocalPkg.name ≠ "runtime") :
    (fninit ext st n).isEmitted = false ∧
    (fninit ext st n).state.defs = st.defs ∧
    (fninit ext st n).state.exportlist = st.exportlist ∧
    (fninit ext st n).state.data = st.data ∧
    (fninit ext st n).state.globl = st.globl ∧
    (∀ todo, st.initTodo = some todo → todo.dcl = none →
      fninit ext st n = .returned { st with initTodo := none } [] []) := by
  have hdeps : depsOf ext st = [] := depsOf_eq_nil ext st himp
  have hfnsOf : fnsOf ext st n = [] := by
    unfold fnsOf
    rw [hnf, userFns_eq_nil st hfns]
    rfl
  have hshort : shortCircuit st (depsOf ext st) (fnsOf ext st n) := by
    rw [hdeps, hfnsOf]
    exact ⟨rfl, rfl, hmain, hrt⟩
  refine ⟨?_, ?_⟩
  · rcases fninit_inv ext st n with ⟨pkg, hpkg, m, hm, _, _⟩ | ⟨_, s, hu, h⟩
    · rw [himp pkg hpkg] at hm; cases hm
    · rcases h with h | h | ⟨_, _, h⟩ | ⟨_, hns, _⟩
      · rw [h]; rfl
      · rw [h]; rfl
      · rw [h]; rfl
      · exact absurd hshort hns
  · have hstate : (fninit ext st n).state.defs = st.defs ∧
        (fninit ext st n).state.exportlist = st.exportlist ∧
        (fninit ext st n).state.data = st.data ∧
        (fninit ext st n).state.globl = st.globl := by
      rcases fninit_inv ext st n with ⟨pkg, hpkg, m, hm, _, _⟩ | ⟨_, s, hu, h⟩
      · rw [himp pkg hpkg] at hm; cases hm
      · obtain ⟨_, _, _, hd, he, hda, hg⟩ := hu
        rcases h with h | h | ⟨_, _, h⟩ | ⟨_, hns, _⟩
        · rw [h]; exact ⟨hd, he, hda, hg⟩
        · rw [h]; exact ⟨hd, he, hda, hg⟩
        · rw [h]; exact ⟨hd, he, hda, hg⟩
        · exact absurd hshort hns
    refine ⟨hstate.1, hstate.2.1, hstate.2.2.1, hstate.2.2.2, ?_⟩
    intro todo htodo hdcl
    have hgood : ∀ pkg ∈ st.sourceOrderImports, ∀ m, taskOf ext st pkg = some m → goodTask m := by
      intro pkg hpkg m hm
      rw [himp pkg hpkg] at hm; cases hm
    have hfd := findDeps_ok ext st st.sourceOrderImports [] hgood
    rw [List.nil_append] at hfd
    have hfd2 : findDeps ext st st.sourceOrderImports [] = .ok [] := by
      rw [hfd]; exact congrArg _ hdeps
    have hdecl : ∀ j, 0 ≤ j → j < 0 + st.renameinitgen.toNat →
        ∃ fn, ({ st with initTodo := none } : State).Defn
          (({ st with initTodo := none } : State).lookupN "init." j) = some fn := by
      intro j _ hj
      obtain ⟨fn, hfn, _⟩ := hfns j (by omega)
      exact ⟨fn, hfn⟩
    have hrec := recordInits_declared { st with initTodo := none } st.renameinitgen.toNat 0 [] hdecl
    rw [← List.range_eq_range', List.nil_append,
      userFn_congr st { st with initTodo := none } ⟨rfl, rfl, rfl, rfl, rfl, rfl, rfl⟩,
      userFns_eq_nil st hfns] at hrec
    unfold fninit
    simp only [hfd2, hnf, makeInit, htodo, hdcl, Option.isSome_none, hrec]
    simp [hmain, hrt]

/-- Witness of C1: the library `stLib`. -/
theorem fninit_nothing_to_do_witness :
    (fninit ext64 stLib []).isEmitted = false ∧
    (fninit ext64 stLib []).state.defs = stLib.defs ∧
    (fninit ext64 stLib []).state.exportlist = stLib.exportlist ∧
    (fninit ext64 stLib []).state.data = stLib.data ∧
    (fninit ext64 stLib []).state.globl = stLib.globl ∧
    (∀ todo, stLib.initTodo = some todo → todo.dcl = none →
      fninit ext64 stLib [] = .returned { stLib with initTodo := none } [] []) :=
  fninit_nothing_to_do ext64 stLib [] (by decide) rfl
    (by
      intro i hi
      have hi0 : i = 0 := by
        have : i < 1 := hi
        omega
      subst hi0
      exact ⟨declaredFunc ⟨"example.com/lib", "init.0"⟩ [⟨Op.OEMPTY, 7⟩],
        by decide, by decide⟩)
    (by decide) (by decide)

theorem untouched_syms (st s : State) (h : Untouched st s) :
    s.lookup ".inittask" = st.lookup ".inittask" ∧ taskNode s = taskNode st ∧
      taskSym s = taskSym st := by
  obtain ⟨_, _, hp, _⟩ := h
  simp [State.lookup, taskNode, taskSym, hp]

/-- What a run that ends with the record leaves behind, in terms of the entry
state: the name node bound to `.inittask` and exported, the record appended to
the written data, the symbol declared with the truncated final offset. -/
theorem emitTask_untouched (ext : Ext) (st s : State) (deps fns : List LSym)
    (h : Untouched st s) :
    (emitTask ext s deps fns).defs = (st.lookup ".inittask", taskNode st) :: st.defs ∧
    (emitTask ext s deps fns).exportlist = st.exportlist ++ [taskNode st] ∧
    (emitTask ext s deps fns).data = st.data ++ recordData ext (taskSym st) deps fns ∧
    (emitTask ext s deps fns).globl = st.globl ++
      [(taskSym st, int32 ((3 + deps.length + fns.length) * ext.Widthptr), ext.NOPTR)] := by
  obtain ⟨h1, h2, h3⟩ := untouched_syms st s h
  obtain ⟨_, _, _, hd, he, hda, hg⟩ := h
  rw [emitTask_eq]
  simp only [h1, h2, h3, hd, he, hda, hg, and_self]

/-- C2, the claim as stated, fails: the package `main` of `stMainBad` imports a
package whose `.inittask` is not of class `PEXTERN`; the run ends in the fatal
error of line 52 and no init task is produced. -/
theorem fninit_main_always_counterexample :
    stMainBad.LocalPkg.name = "main" ∧
    fninit ext64 stMainBad [] = .fatal (Fatal.badInittask badTask) stMainBad ∧
    (fninit ext64 stMainBad []).isEmitted = false ∧
    (fninit ext64 stMainBad []).state.Def (stMainBad.lookup ".inittask") = none := by
  decide

/-- C2, amended: for a package named `main` or `runtime`, every run of `fninit`
that is not aborted (no fatal error, no nil dereference) produces the init
task: the name node is bound to `.inittask` and exported, and the record is
written; when `deps` and `fns` are both empty the record is the three words
state 0, depCount 0, fnCount 0 with no relocation, declared with the size of
three pointers. -/
theorem fninit_main_runtime (ext : Ext) (st : State) (n : List Stmt)
    (hname : st.LocalPkg.name = "main" ∨ st.LocalPkg.name = "runtime")
    (hrun : (fninit ext st n).isAbort = false) :
    (fninit ext st n).isEmitted = true ∧
    (fninit ext st n).state.Def (st.lookup ".inittask") = some (taskNode st) ∧
    (fninit ext st n).state.exportlist = st.exportlist ++ [taskNode st] ∧
    (∀ deps fns, (fninit ext st n).lists = some (deps, fns) → deps = [] → fns = [] →
      (fninit ext st n).state.data = st.data ++
        [(taskSym st, Datum.int 0 ext.Widthptr 0),
         (taskSym st, Datum.int ext.Widthptr ext.Widthptr 0),
         (taskSym st, Datum.int (2 * ext.Widthptr) ext.Widthptr 0)] ∧
      (fninit ext st n).state.globl = st.globl ++
        [(taskSym st, int32 (3 * ext.Widthptr), ext.NOPTR)]) := by
  rcases fninit_inv ext st n with ⟨_, _, m, _, _, h⟩ | ⟨_, s, hu, h⟩
  · rw [h] at hrun; cases hrun
  · rcases h with h | h | ⟨_, hs, _⟩ | ⟨_, _, h⟩
    · rw [h] at hrun; cases hrun
    · rw [h] at hrun; cases hrun
    · obtain ⟨_, _, h1, h2⟩ := hs
      rcases hname with hn | hn
      · exact absurd hn h1
      · exact absurd hn h2
    · obtain ⟨hd, he, hda, hg⟩ :=
        emitTask_untouched ext st s (depsOf ext st) (fnsOf ext st n) hu
      rw [h]
      refine ⟨rfl, ?_, he, ?_⟩
      · show List.lookup _ (emitTask ext s (depsOf ext st) (fnsOf ext st n)).defs = _
        rw [hd]
        simp [List.lookup]
      · intro deps fns hl hdeps hfns
        simp only [Result.lists, Option.some.injEq, Prod.mk.injEq] at hl
        show (emitTask ext s (depsOf ext st) (fnsOf ext st n)).data = _ ∧
          (emitTask ext s (depsOf ext st) (fnsOf ext st n)).globl = _
        rw [hda, hg, hl.1, hl.2, hdeps, hfns]
        simp [recordData, relocsFrom]

/-- Witness of C2 amended: the package `main` with no import, no statement and
no init function. -/
theorem fninit_main_runtime_witness :
    (emptyState "main" "main").LocalPkg.name = "main" ∧
    (fninit ext64 (emptyState "main" "main") []).isAbort = false ∧
    (fninit ext64 (emptyState "main" "main") []).lists = some ([], []) ∧
    (fninit ext64 (emptyState "main" "main") []).isEmitted = true ∧
    (fninit ext64 (emptyState "main" "main") []).state.data =
      [(taskSym (emptyState "main" "main"), Datum.int 0 8 0),
       (taskSym (emptyState "main" "main"), Datum.int 8 8 0),
       (taskSym (emptyState "main" "main"), Datum.int 16 8 0)] :=
  have h := fninit_main_runtime ext64 (emptyState "main" "main") [] (Or.inl rfl) (by decide)
  ⟨rfl, by decide, by decide, h.1, (h.2.2.2 [] [] (by decide) rfl rfl).1⟩

/-- The lists of a run that reached line 97 are `depsOf` and `fnsOf`. -/
theorem fninit_lists (ext : Ext) (st : State) (n : List Stmt) (deps fns : List LSym)
    (h : (fninit ext st n).lists = some (deps, fns)) :
    deps = depsOf ext st ∧ fns = fnsOf ext st n := by
  rcases fninit_inv ext st n with ⟨_, _, m, _, _, h1⟩ | ⟨_, s, _, h1⟩
  · rw [h1] at h; cases h
  · rcases h1 with h1 | h1 | ⟨_, _, h1⟩ | ⟨_, _, h1⟩
    · rw [h1] at h; cases h
    · rw [h1] at h; cases h
    · rw [h1] at h
      simp only [Result.lists, Option.some.injEq, Prod.mk.injEq] at h
      exact ⟨h.1.symm, h.2.symm⟩
    · rw [h1] at h
      simp only [Result.lists, Option.some.injEq, Prod.mk.injEq] at h
      exact ⟨h.1.symm, h.2.symm⟩

/-- A run on well-formed input is not aborted: with `initTodo` allocated, every
init task found of class `PEXTERN`, no declaration left in `initTodo` unless
there are initialization statements, and every issued `init.N` declared, the
run reaches line 97 with the lists `depsOf` and `fnsOf`. -/
theorem fninit_completes (ext : Ext) (st : State) (n : List Stmt) (todo : Func)
    (htodo : st.initTodo = some todo)
    (hgood : ∀ pkg ∈ st.sourceOrderImports, ∀ m, taskOf ext st pkg = some m → goodTask m)
    (hdcl : ext.initOrder n = [] → todo.dcl = none)
    (hdecl : ∀ i < st.renameinitgen.toNat, ∃ fn, st.Defn (st.lookupN "init." i) = some fn) :
    (fninit ext st n).lists = some (depsOf ext st, fnsOf ext st n) := by
  have hfd := findDeps_ok ext st st.sourceOrderImports [] hgood
  rw [List.nil_append] at hfd
  have key : ∀ s : State, Untouched st s → ∀ out : List LSym,
      (match recordInits { s with initTodo := none } s.renameinitgen.toNat 0 out with
        | none => Result.nilDeref { s with initTodo := none }
        | some fns =>
          if (List.filterMap (depOf ext st) st.sourceOrderImports).length = 0 ∧
              fns.length = 0 ∧ s.LocalPkg.name ≠ "main" ∧ s.LocalPkg.name ≠ "runtime" then
            Result.returned { s with initTodo := none }
              (List.filterMap (depOf ext st) st.sourceOrderImports) fns
          else
            Result.emitted (emitTask ext { s with initTodo := none }
              (List.filterMap (depOf ext st) st.sourceOrderImports) fns)
              (List.filterMap (depOf ext st) st.sourceOrderImports) fns).lists =
        some (depsOf ext st,
          out ++ (List.range st.renameinitgen.toNat).filterMap (userFn st)) := by
    intro s hu out
    have hu1 : Untouched st { s with initTodo := none } := hu
    have hd : ∀ j, 0 ≤ j → j < 0 + s.renameinitgen.toNat →
        ∃ fn, ({ s with initTodo := none } : State).Defn
          (({ s with initTodo := none } : State).lookupN "init." j) = some fn := by
      intro j _ hj
      rw [hu.1] at hj
      obtain ⟨fn, hfn⟩ := hdecl j (by omega)
      refine ⟨fn, ?_⟩
      obtain ⟨_, _, hp, hdf, _⟩ := hu
      simpa [State.Defn, State.Def, State.lookupN, State.lookup, hp, hdf] using hfn
    have hrec := recordInits_declared { s with initTodo := none } s.renameinitgen.toNat 0 out hd
    have hrange : (List.range' 0 s.renameinitgen.toNat).filterMap
          (userFn ({ s with initTodo := none } : State)) =
        (List.range st.renameinitgen.toNat).filterMap (userFn st) := by
      rw [← List.range_eq_range', userFn_congr st _ hu1, hu.1]
    rw [hrec, hrange]
    simp only
    split <;> rfl
  obtain ⟨s, out, hm, t, ht, htd⟩ := makeInit_ok ext st (ext.initOrder n) [] todo htodo hdcl
  obtain ⟨hu, hout⟩ := (makeInit_untouched ext st (ext.initOrder n) []).2 s out hm
  unfold fninit
  simp only [hfd, hm, ht, htd, Option.isSome_none, Bool.false_eq_true, if_false]
  rw [key s hu out, hout]
  rfl

/-- C3: the scan of lines 45-55 ends with a list `deps` exactly when every init
task found is a name of class `PEXTERN`, and the list is then the imports in
source order, those without init task dropped, each other one replaced by the
link symbol of its init task; this is the list `deps` of every run of `fninit`
that reaches line 97.  For the imports `[A, B, C]` of which only `A` and `C`
have an init task, `deps` is `[A's task, C's task]`. -/
theorem fninit_deps_source_order (ext : Ext) (st : State) (n : List Stmt) :
    (∀ deps, findDeps ext st st.sourceOrderImports [] = .ok deps ↔
      ((∀ pkg ∈ st.sourceOrderImports, ∀ m,
          ext.resolve (st.Def (pkg.Lookup ".inittask")) = some m →
            m.op = Op.ONAME ∧ m.cls = Class.PEXTERN) ∧
        deps = st.sourceOrderImports.filterMap (fun pkg =>
          (ext.resolve (st.Def (pkg.Lookup ".inittask"))).map (fun m => m.sym.Linksym)))) ∧
    (∀ deps fns, (fninit ext st n).lists = some (deps, fns) →
      deps = st.sourceOrderImports.filterMap (fun pkg =>
          (ext.resolve (st.Def (pkg.Lookup ".inittask"))).map (fun m => m.sym.Linksym)) ∧
      (∀ A B C a c, st.sourceOrderImports = [A, B, C] →
        ext.resolve (st.Def (A.Lookup ".inittask")) = some a →
        ext.resolve (st.Def (B.Lookup ".inittask")) = none →
        ext.resolve (st.Def (C.Lookup ".inittask")) = some c →
        deps = [a.sym.Linksym, c.sym.Linksym])) := by
  constructor
  · intro deps
    constructor
    · intro h
      have hgood := findDeps_ok_inv ext st st.sourceOrderImports [] deps h
      have hok := findDeps_ok ext st st.sourceOrderImports [] hgood
      rw [h, List.nil_append] at hok
      injection hok with hok
      exact ⟨hgood, hok⟩
    · rintro ⟨hgood, hdeps⟩
      have hok := findDeps_ok ext st st.sourceOrderImports [] hgood
      rw [List.nil_append] at hok
      rw [hok, hdeps]
      rfl
  · intro deps fns h
    obtain ⟨hd, _⟩ := fninit_lists ext st n deps fns h
    refine ⟨hd, ?_⟩
    intro A B C a c himp hA hB hC
    rw [hd]
    simp [depsOf, himp, depOf, taskOf, hA, hB, hC]

/-- Witness of C3: the imports `a`, `b`, `c` of `stABC`. -/
theorem fninit_deps_source_order_witness :
    (fninit ext64 stABC []).lists =
      some ([(importTask "example.com/a").1.Linksym, (importTask "example.com/c").1.Linksym],
        []) ∧
    findDeps ext64 stABC stABC.sourceOrderImports [] =
      .ok [(importTask "example.com/a").1.Linksym, (importTask "example.com/c").1.Linksym] :=
  ⟨by decide,
    ((fninit_deps_source_order ext64 stABC []).1 _).2 ⟨by decide, by decide⟩⟩

/-- A completed loop over the user init functions met a declared function at
every index. -/
theorem recordInits_some_declared (st : State) :
    ∀ (k i : Nat) (fns out : List LSym), recordInits st k i fns = some out →
      ∀ j, i ≤ j → j < i + k → ∃ fn, st.Defn (st.lookupN "init." j) = some fn := by
  intro k
  induction k with
  | zero => intro i fns out _ j h1 h2; omega
  | succ k ih =>
    intro i fns out h j h1 h2
    rw [recordInits] at h
    cases hd : st.Defn (st.lookupN "init." i) with
    | none => simp [hd] at h
    | some fn =>
      simp only [hd] at h
      by_cases hj : j = i
      · subst hj; exact ⟨fn, hd⟩
      · by_cases he : emptyBody fn = true
        · rw [if_pos he] at h
          exact ih _ _ _ h j (by omega) (by omega)
        · rw [if_neg he] at h
          exact ih _ _ _ h j (by omega) (by omega)

/-- In a run that reaches line 97 every issued `init.N` is the name of a
declared function. -/
theorem fninit_declared (ext : Ext) (st : State) (n : List Stmt) (deps fns : List LSym)
    (h : (fninit ext st n).lists = some (deps, fns)) :
    ∀ i < st.renameinitgen.toNat, ∃ fn, st.Defn (st.lookupN "init." i) = some fn := by
  unfold fninit at h
  simp only at h
  split at h
  · cases h
  · split at h
    · cases h
    · rename_i s out hm
      obtain ⟨hu, _⟩ := (makeInit_untouched ext st (ext.initOrder n) []).2 s out hm
      split at h
      · cases h
      · split at h
        · cases h
        · split at h
          · cases h
          · rename_i fns2 hrec
            intro i hi
            obtain ⟨fn, hfn⟩ := recordInits_some_declared _ _ _ _ _ hrec i (Nat.zero_le _)
              (by rw [hu.1]; omega)
            refine ⟨fn, ?_⟩
            obtain ⟨_, _, hp, hdf, _⟩ := hu
            simpa [State.Defn, State.Def, State.lookupN, State.lookup, hp, hdf] using hfn

/-- C4: in every run of `fninit` that reaches line 97 the list `fns` is the
symbol `init` as single first element exactly when there are initialization
statements, followed by the symbols of `init.0`, ..., `init.(n-1)` in issuance
order without those whose body is a single `OEMPTY`.  With statements present,
`init.0` not empty and `init.1` a single `OEMPTY`, `fns` is `[init, init.0]`. -/
theorem fninit_fns_order (ext : Ext) (st : State) (n : List Stmt) (deps fns : List LSym)
    (h : (fninit ext st n).lists = some (deps, fns)) :
    fns = (if ext.initOrder n = [] then [] else [(st.lookup "init").Linksym]) ++
      (List.range st.renameinitgen.toNat).filterMap (fun (i : Nat) =>
        match st.Defn (st.lookupN "init." i) with
        | some fn => if emptyBody fn then none else some (st.lookupN "init." i).Linksym
        | none => none) ∧
    (∀ i < st.renameinitgen.toNat, ∃ fn, st.Defn (st.lookupN "init." i) = some fn) ∧
    (∀ f1 f2, ext.initOrder n ≠ [] → st.renameinitgen = 2 →
      st.Defn (st.lookupN "init." 0) = some f1 → emptyBody f1 = false →
      st.Defn (st.lookupN "init." 1) = some f2 → emptyBody f2 = true →
      fns = [(st.lookup "init").Linksym, (st.lookupN "init." 0).Linksym]) := by
  obtain ⟨_, hf⟩ := fninit_lists ext st n deps fns h
  have hsyn : synthFns st (ext.initOrder n) =
      (if ext.initOrder n = [] then [] else [(st.lookup "init").Linksym]) := by
    cases ext.initOrder n with
    | nil => rfl
    | cons a l => simp [synthFns, initSym]
  have hfn : fns = (if ext.initOrder n = [] then [] else [(st.lookup "init").Linksym]) ++
      (List.range st.renameinitgen.toNat).filterMap (userFn st) := by
    rw [hf, fnsOf, hsyn]
  refine ⟨hfn, ?_, ?_⟩
  · exact fninit_declared ext st n deps fns h
  · intro f1 f2 hnf hgen h0 he0 h1 he1
    rw [hfn, if_neg hnf, hgen]
    simp [List.range_succ, userFn, h0, he0, h1, he1]

/-- Witness of C4: `stTwoInits` with one initialization statement. -/
theorem fninit_fns_order_witness :
    (fninit ext64 stTwoInits oneStmt).lists =
      some ([], [(stTwoInits.lookup "init").Linksym, (stTwoInits.lookupN "init." 0).Linksym]) ∧
    [(stTwoInits.lookup "init").Linksym, (stTwoInits.lookupN "init." 0).Linksym] =
      [(⟨⟨"example.com/lib", "init"⟩⟩ : LSym), ⟨⟨"example.com/lib", "init.0"⟩⟩] :=
  ⟨by decide,
    ((fninit_fns_order ext64 stTwoInits oneStmt []
      [⟨⟨"example.com/lib", "init"⟩⟩, ⟨⟨"example.com/lib", "init.0"⟩⟩] (by decide)).2.2
      (declaredFunc ⟨"example.com/lib", "init.0"⟩ [⟨Op.OTHER 1, 11⟩])
      (declaredFunc ⟨"example.com/lib", "init.1"⟩ [⟨Op.OEMPTY, 12⟩])
      (by decide) rfl (by decide) (by decide) (by decide) (by decide)).symm⟩

/-- The test of line 91 holds exactly for a body that is a single `OEMPTY`. -/
theorem emptyBody_iff (fn : Func) :
    emptyBody fn = true ↔ ∃ pos, fn.body = [⟨Op.OEMPTY, pos⟩] := by
  unfold emptyBody
  constructor
  · intro h
    rcases hb : fn.body with _ | ⟨a, _ | ⟨b, l⟩⟩
    · simp [hb] at h
    · simp only [hb, List.length_singleton, beq_self_eq_true, List.head?_cons, Option.map_some',
        Bool.true_and, beq_iff_eq, Option.some.injEq] at h
      refine ⟨a.pos, ?_⟩
      cases a
      simp_all
    · simp [hb] at h
  · rintro ⟨pos, h⟩
    simp [h]

theorem lookupN_int_injective (st : State) (i j : Int)
    (h : (st.lookupN "init." i).Linksym = (st.lookupN "init." j).Linksym) : i = j := by
  simp only [State.lookupN, State.lookup, Pkg.Lookup, Sym.Linksym, LSym.mk.injEq,
    Sym.mk.injEq, true_and] at h
  exact initName_injective i j h

theorem lookupN_injective (st : State) (i j : Nat)
    (h : (st.lookupN "init." i).Linksym = (st.lookupN "init." j).Linksym) : i = j := by
  have := lookupN_int_injective st i j h
  exact_mod_cast this

theorem lookupN_ne_init (st : State) (i : Int) :
    (st.lookupN "init." i).Linksym ≠ initSym st := by
  intro h
  simp only [State.lookupN, State.lookup, Pkg.Lookup, Sym.Linksym, initSym, LSym.mk.injEq,
    Sym.mk.injEq, true_and] at h
  exact initName_ne i h

/-- Membership in the list `fns`. -/
theorem mem_fnsOf (ext : Ext) (st : State) (n : List Stmt) (x : LSym) :
    x ∈ fnsOf ext st n ↔
      (ext.initOrder n ≠ [] ∧ x = initSym st) ∨
      ∃ i < st.renameinitgen.toNat, ∃ fn, st.Defn (st.lookupN "init." i) = some fn ∧
        emptyBody fn = false ∧ x = (st.lookupN "init." i).Linksym := by
  unfold fnsOf
  rw [List.mem_append, List.mem_filterMap]
  constructor
  · rintro (h | ⟨i, hi, hx⟩)
    · left
      cases hnf : ext.initOrder n with
      | nil => rw [hnf] at h; simp [synthFns] at h
      | cons a l =>
        rw [hnf] at h
        simp only [synthFns, List.mem_singleton] at h
        exact ⟨by simp, h⟩
    · right
      refine ⟨i, List.mem_range.1 hi, ?_⟩
      unfold userFn at hx
      cases hd : st.Defn (st.lookupN "init." i) with
      | none => simp [hd] at hx
      | some fn =>
        simp only [hd] at hx
        by_cases he : emptyBody fn = true
        · simp [he] at hx
        · rw [if_neg he] at hx
          injection hx with hx
          exact ⟨fn, rfl, by simpa using he, hx.symm⟩
  · rintro (⟨hnf, hx⟩ | ⟨i, hi, fn, hd, he, hx⟩)
    · left
      cases h : ext.initOrder n with
      | nil => exact absurd h hnf
      | cons a l => simp [synthFns, hx]
    · right
      exact ⟨i, List.mem_range.2 hi, by simp [userFn, hd, he, hx]⟩

/-- C5: in every run of `fninit` that reaches line 97, the symbol of a user
init function whose whole body is a single `OEMPTY` statement is not a member
of `fns`, however many such functions there are and wherever they were issued;
if every user init function is of this kind, `fns` holds no `init.N` at all
(it is the symbol `init` alone, or empty). -/
theorem fninit_elided_not_in_fns (ext : Ext) (st : State) (n : List Stmt)
    (deps fns : List LSym) (h : (fninit ext st n).lists = some (deps, fns)) :
    (∀ (i : Nat) fn pos, st.Defn (st.lookupN "init." i) = some fn →
      fn.body = [⟨Op.OEMPTY, pos⟩] →
      (st.lookupN "init." i).Linksym ∉ fns) ∧
    ((∀ i < st.renameinitgen.toNat, ∀ fn, st.Defn (st.lookupN "init." i) = some fn →
        ∃ pos, fn.body = [⟨Op.OEMPTY, pos⟩]) →
      (∀ j : Nat, (st.lookupN "init." j).Linksym ∉ fns) ∧
      fns = (if ext.initOrder n = [] then [] else [(st.lookup "init").Linksym])) := by
  obtain ⟨_, hf⟩ := fninit_lists ext st n deps fns h
  constructor
  · intro i fn pos hd hb hmem
    rw [hf, mem_fnsOf] at hmem
    rcases hmem with ⟨_, hx⟩ | ⟨j, _, fn2, hd2, he2, hx⟩
    · exact lookupN_ne_init st i hx
    · have hij := lookupN_injective st i j hx
      subst hij
      rw [hd] at hd2
      injection hd2 with hd2
      subst hd2
      have : emptyBody fn = true := (emptyBody_iff fn).2 ⟨pos, hb⟩
      rw [this] at he2
      cases he2
  · intro hall
    constructor
    · intro j hmem
      rw [hf, mem_fnsOf] at hmem
      rcases hmem with ⟨_, hx⟩ | ⟨i, hi, fn2, hd2, he2, _⟩
      · exact lookupN_ne_init st j hx
      · have : emptyBody fn2 = true := (emptyBody_iff fn2).2 (hall i hi fn2 hd2)
        rw [this] at he2
        cases he2
    · have hnil : (List.range st.renameinitgen.toNat).filterMap (userFn st) = [] := by
        rw [List.filterMap_eq_nil_iff]
        intro i hi
        unfold userFn
        cases hd : st.Defn (st.lookupN "init." i) with
        | none => rfl
        | some fn =>
          have : emptyBody fn = true :=
            (emptyBody_iff fn).2 (hall i (List.mem_range.1 hi) fn hd)
          simp [this]
      rw [hf, fnsOf, hnil, List.append_nil]
      cases ext.initOrder n with
      | nil => rfl
      | cons a l => simp [synthFns, initSym]

/-- Witness of C5: the three empty init functions of `stAllEmpty`, with one
initialization statement. -/
theorem fninit_elided_not_in_fns_witness :
    (fninit ext64 stAllEmpty oneStmt).lists = some ([], [(stAllEmpty.lookup "init").Linksym]) ∧
    (stAllEmpty.lookupN "init." 1).Linksym ∉ [(stAllEmpty.lookup "init").Linksym] :=
  ⟨by decide,
    (fninit_elided_not_in_fns ext64 stAllEmpty oneStmt [] [(stAllEmpty.lookup "init").Linksym]
      (by decide)).1 1 (declaredFunc ⟨"example.com/lib", "init.1"⟩ [⟨Op.OEMPTY, 12⟩]) 12
      (by decide) rfl⟩

/-- C6, the claim as stated, fails: line 51 tests the operation and the class
of the definition, never its type.  The `.inittask` of the import of
`stWrongType` is defined and is not of the type of an init task, yet the run
is not aborted: the symbol is added to `deps` and a record is emitted. -/
theorem fninit_bad_inittask_counterexample :
    stWrongType.sourceOrderImports = [⟨"example.com/a", "a"⟩] ∧
    ext64.resolve (stWrongType.Def (Pkg.Lookup ⟨"example.com/a", "a"⟩ ".inittask")) =
      some wrongTypeTask ∧
    wrongTypeTask.typ ≠ some Kind.TUINT8 ∧
    (fninit ext64 stWrongType []).isAbort = false ∧
    (fninit ext64 stWrongType []).lists = some ([wrongTypeTask.sym.Linksym], []) ∧
    (fninit ext64 stWrongType []).isEmitted = true ∧
    (fninit ext64 stWrongType []).state.data =
      recordData ext64 (taskSym stWrongType) [wrongTypeTask.sym.Linksym] [] := by
  decide

/-- C6, amended: when the `.inittask` of some import is defined but is not a
name (`ONAME`) of class `PEXTERN`, `fninit` ends in the fatal error
"bad inittask" of line 52, raised for such an import: the import is neither
skipped nor added to a list `deps`, the state is the entry state and no record
is emitted.  The type of the definition plays no part. -/
theorem fninit_bad_inittask (ext : Ext) (st : State) (n : List Stmt) (pkg : Pkg) (m : Node)
    (hpkg : pkg ∈ st.sourceOrderImports)
    (hm : ext.resolve (st.Def (pkg.Lookup ".inittask")) = some m)
    (hbad : ¬ (m.op = Op.ONAME ∧ m.cls = Class.PEXTERN)) :
    (∃ bad ∈ st.sourceOrderImports, ∃ b,
      ext.resolve (st.Def (bad.Lookup ".inittask")) = some b ∧
      ¬ (b.op = Op.ONAME ∧ b.cls = Class.PEXTERN) ∧
      fninit ext st n = .fatal (Fatal.badInittask b) st) ∧
    (fninit ext st n).lists = none ∧
    (fninit ext st n).isEmitted = false ∧
    (fninit ext st n).state = st := by
  rcases fninit_inv ext st n with ⟨bad, hb, b, hbm, hbb, h⟩ | ⟨hgood, _⟩
  · refine ⟨⟨bad, hb, b, hbm, hbb, h⟩, ?_, ?_, ?_⟩ <;> rw [h] <;> rfl
  · exact absurd (hgood pkg hpkg m hm) hbad

/-- Witness of C6: the second import of `stBadSecond`. -/
theorem fninit_bad_inittask_witness :
    fninit ext64 stBadSecond [] = .fatal (Fatal.badInittask notAName) stBadSecond ∧
    (fninit ext64 stBadSecond []).lists = none ∧
    (fninit ext64 stBadSecond []).isEmitted = false ∧
    (fninit ext64 stBadSecond []).state = stBadSecond :=
  ⟨by decide,
    (fninit_bad_inittask ext64 stBadSecond [] ⟨"example.com/b", "b"⟩ notAName
      (by decide) (by decide) (by decide)).2⟩

/-! ## The layout of the record -/

theorem relocsFrom_length (ext : Ext) (lsym : LSym) (xs : List LSym) :
    ∀ k, (relocsFrom ext lsym k xs).length = xs.length := by
  induction xs with
  | nil => intro k; rfl
  | cons x rest ih => intro k; simp [relocsFrom, ih]

theorem relocsFrom_get (ext : Ext) (lsym : LSym) (xs : List LSym) :
    ∀ k i, (relocsFrom ext lsym k xs)[i]? =
      xs[i]?.map (fun x => (lsym, Datum.addr ((k + i) * ext.Widthptr) ext.Widthptr x 0)) := by
  induction xs with
  | nil => intro k i; simp [relocsFrom]
  | cons x rest ih =>
    intro k i
    cases i with
    | zero => simp [relocsFrom]
    | succ i =>
      simp only [relocsFrom, List.getElem?_cons_succ, ih]
      have : k + 1 + i = k + (i + 1) := by omega
      rw [this]

theorem relocsFrom_target (ext : Ext) (lsym : LSym) (xs : List LSym) :
    ∀ k, (relocsFrom ext lsym k xs).map (fun w => w.2.target) = xs.map some := by
  induction xs with
  | nil => intro k; rfl
  | cons x rest ih =>
    intro k
    rw [relocsFrom, List.map_cons, List.map_cons, ih]
    rfl

theorem int32_of_lt (x : Nat) (h : x < 2 ^ 31) : int32 x = (x : Int) := by
  unfold int32
  have h1 : x % 2 ^ 32 = x := Nat.mod_eq_of_lt (by omega)
  simp only [h1]
  rw [if_pos h]

/-- The state a run leaves when it ends with the record. -/
theorem fninit_emitted_state (ext : Ext) (st st' : State) (n : List Stmt)
    (deps fns : List LSym) (h : fninit ext st n = .emitted st' deps fns) :
    st'.defs = (st.lookup ".inittask", taskNode st) :: st.defs ∧
    st'.exportlist = st.exportlist ++ [taskNode st] ∧
    st'.data = st.data ++ recordData ext (taskSym st) deps fns ∧
    st'.globl = st.globl ++
      [(taskSym st, int32 ((3 + deps.length + fns.length) * ext.Widthptr), ext.NOPTR)] := by
  rcases fninit_inv ext st n with ⟨_, _, m, _, _, h1⟩ | ⟨_, s, hu, h1⟩
  · rw [h1] at h; cases h
  · rcases h1 with h1 | h1 | ⟨_, _, h1⟩ | ⟨_, _, h1⟩
    · rw [h1] at h; cases h
    · rw [h1] at h; cases h
    · rw [h1] at h; cases h
    · rw [h1] at h
      injection h with h2 h3 h4
      rw [← h2, ← h3, ← h4]
      exact emitTask_untouched ext st s _ _ hu

/-- A run that reaches line 97 with a dependency or a function ends with the
record. -/
theorem fninit_emitted_of_lists (ext : Ext) (st : State) (n : List Stmt)
    (deps fns : List LSym) (h : (fninit ext st n).lists = some (deps, fns))
    (hne : deps ≠ [] ∨ fns ≠ [] ∨ st.LocalPkg.name = "main" ∨ st.LocalPkg.name = "runtime") :
    ∃ st', fninit ext st n = .emitted st' deps fns := by
  obtain ⟨hd, hf⟩ := fninit_lists ext st n deps fns h
  rcases fninit_inv ext st n with ⟨_, _, m, _, _, h1⟩ | ⟨_, s, hu, h1⟩
  · rw [h1] at h; cases h
  · rcases h1 with h1 | h1 | ⟨_, hs, _⟩ | ⟨_, _, h1⟩
    · rw [h1] at h; cases h
    · rw [h1] at h; cases h
    · obtain ⟨h2, h3, h4, h5⟩ := hs
      rw [← hd] at h2
      rw [← hf] at h3
      rcases hne with hne | hne | hne | hne
      · exact absurd (List.length_eq_zero.1 h2) hne
      · exact absurd (List.length_eq_zero.1 h3) hne
      · exact absurd hne h4
      · exact absurd hne h5
    · exact ⟨_, by rw [h1, hd, hf]⟩

theorem filterMap_replicate {α β : Type} (f : α → Option β) (a : α) (b : β)
    (h : f a = some b) : ∀ k, (List.replicate k a).filterMap f = List.replicate k b := by
  intro k
  induction k with
  | zero => rfl
  | succ k ih => rw [List.replicate_succ, List.filterMap_cons_some h, ih, List.replicate_succ]

/-- C7, the claim as stated, fails on the declared size: for the `2 ^ 28`
imports of `stHuge` on a 64-bit target the run ends with the record, the final
offset is `(3 + 2 ^ 28) * 8 = 2147483672`, and the size declared for the symbol
is `int32` of it, the negative number `-2147483624`. -/
theorem fninit_record_size_counterexample :
    ∃ st', fninit ext64 stHuge [] =
        .emitted st' (List.replicate (2 ^ 28) (importTask "example.com/a").1.Linksym) [] ∧
      (3 + (List.replicate (2 ^ 28) (importTask "example.com/a").1.Linksym).length
        + ([] : List LSym).length) * ext64.Widthptr = 2147483672 ∧
      st'.globl = [(taskSym stHuge, -2147483624, ext64.NOPTR)] := by
  have hgood : ∀ pkg ∈ stHuge.sourceOrderImports, ∀ m,
      taskOf ext64 stHuge pkg = some m → goodTask m := by
    intro pkg hpkg m hm
    have hp : pkg = ⟨"example.com/a", "a"⟩ := List.eq_of_mem_replicate hpkg
    subst hp
    have : taskOf ext64 stHuge ⟨"example.com/a", "a"⟩ = some (importTask "example.com/a").2 := by
      decide
    rw [this] at hm
    injection hm with hm
    subst hm
    exact ⟨rfl, rfl⟩
  have hl := fninit_completes ext64 stHuge []
    { nname := none, pos := 0, dcl := none, body := [] } rfl hgood (fun _ => rfl)
    (fun i hi => absurd hi (Nat.not_lt_zero i))
  have hdeps : depsOf ext64 stHuge =
      List.replicate (2 ^ 28) (importTask "example.com/a").1.Linksym :=
    filterMap_replicate (depOf ext64 stHuge) ⟨"example.com/a", "a"⟩ _ (by decide) _
  have hfns : fnsOf ext64 stHuge [] = [] := rfl
  rw [hdeps, hfns] at hl
  obtain ⟨st', h⟩ := fninit_emitted_of_lists ext64 stHuge [] _ _ hl
    (Or.inl (by
      intro hnil
      have := congrArg List.length hnil
      rw [List.length_replicate] at this
      exact absurd this (by decide)))
  refine ⟨st', h, ?_, ?_⟩
  · rw [List.length_replicate]
    decide
  · obtain ⟨_, _, _, hg⟩ := fninit_emitted_state ext64 stHuge st' [] _ _ h
    rw [hg, List.length_replicate]
    have hsz : int32 ((3 + 2 ^ 28 + ([] : List LSym).length) * ext64.Widthptr)
        = -2147483624 := by decide
    rw [hsz]
    rfl

/-- C7, amended: whenever `fninit` emits a record, the data written to the
`.inittask` symbol is, at consecutive pointer-sized offsets starting at 0, the
word 0, the word `len(deps)`, the word `len(fns)`, then one zero-offset
relocation per element of `deps` in list order, then one per element of `fns`
in list order; the symbol is declared with the flag `NOPTR` and with the size
`int32` of the final offset `(3 + len(deps) + len(fns))` pointer widths, which
is that offset whenever it is below `2 ^ 31`. -/
theorem fninit_record_layout (ext : Ext) (st st' : State) (n : List Stmt)
    (deps fns : List LSym) (h : fninit ext st n = .emitted st' deps fns) :
    st'.data = st.data ++
      ([(taskSym st, Datum.int 0 ext.Widthptr 0),
        (taskSym st, Datum.int ext.Widthptr ext.Widthptr deps.length),
        (taskSym st, Datum.int (2 * ext.Widthptr) ext.Widthptr fns.length)]
        ++ relocsFrom ext (taskSym st) 3 deps
        ++ relocsFrom ext (taskSym st) (3 + deps.length) fns) ∧
    (relocsFrom ext (taskSym st) 3 deps).length = deps.length ∧
    (relocsFrom ext (taskSym st) (3 + deps.length) fns).length = fns.length ∧
    (∀ i d, deps[i]? = some d → (relocsFrom ext (taskSym st) 3 deps)[i]? =
      some (taskSym st, Datum.addr ((3 + i) * ext.Widthptr) ext.Widthptr d 0)) ∧
    (∀ i f, fns[i]? = some f → (relocsFrom ext (taskSym st) (3 + deps.length) fns)[i]? =
      some (taskSym st,
        Datum.addr ((3 + deps.length + i) * ext.Widthptr) ext.Widthptr f 0)) ∧
    st'.globl = st.globl ++
      [(taskSym st, int32 ((3 + deps.length + fns.length) * ext.Widthptr), ext.NOPTR)] ∧
    ((3 + deps.length + fns.length) * ext.Widthptr < 2 ^ 31 →
      int32 ((3 + deps.length + fns.length) * ext.Widthptr) =
        (((3 + deps.length + fns.length) * ext.Widthptr : Nat) : Int)) := by
  obtain ⟨_, _, hda, hg⟩ := fninit_emitted_state ext st st' n deps fns h
  refine ⟨?_, relocsFrom_length _ _ _ _, relocsFrom_length _ _ _ _, ?_, ?_, hg,
    int32_of_lt _⟩
  · rw [hda]
    simp [recordData]
  · intro i d hd
    rw [relocsFrom_get, hd]
    rfl
  · intro i f hf
    rw [relocsFrom_get, hf]
    rfl

/-- Witness of C7 amended: the record of `stABC`, two dependencies and no
function, forty bytes. -/
theorem fninit_record_layout_witness :
    (emitTask ext64 { stABC with initTodo := none }
      [(importTask "example.com/a").1.Linksym, (importTask "example.com/c").1.Linksym]
      []).data =
      [(taskSym stABC, Datum.int 0 8 0), (taskSym stABC, Datum.int 8 8 2),
       (taskSym stABC, Datum.int 16 8 0),
       (taskSym stABC, Datum.addr 24 8 (importTask "example.com/a").1.Linksym 0),
       (taskSym stABC, Datum.addr 32 8 (importTask "example.com/c").1.Linksym 0)] ∧
    (emitTask ext64 { stABC with initTodo := none }
      [(importTask "example.com/a").1.Linksym, (importTask "example.com/c").1.Linksym]
      []).globl = [(taskSym stABC, 40, 16)] :=
  have h := fninit_record_layout ext64 stABC
    (emitTask ext64 { stABC with initTodo := none }
      [(importTask "example.com/a").1.Linksym, (importTask "example.com/c").1.Linksym] [])
    []
    [(importTask "example.com/a").1.Linksym, (importTask "example.com/c").1.Linksym] []
    (by decide)
  ⟨h.1, h.2.2.2.2.2.1⟩

/-- C8: in every record emitted by `fninit` the field depCount equals the
number of dependency relocations written and the field fnCount the number of
function relocations written, and both equal the lengths of the lists `deps`
and `fns` the record was built from; the relocations written are those of
`deps`, then those of `fns`. -/
theorem fninit_counts (ext : Ext) (st st' : State) (n : List Stmt)
    (deps fns : List LSym) (h : fninit ext st n = .emitted st' deps fns) :
    ∃ (depCount fnCount : Nat) (depRelocs fnRelocs : List (LSym × Datum)),
      st'.data = st.data ++
        ([(taskSym st, Datum.int 0 ext.Widthptr 0),
          (taskSym st, Datum.int ext.Widthptr ext.Widthptr depCount),
          (taskSym st, Datum.int (2 * ext.Widthptr) ext.Widthptr fnCount)]
          ++ depRelocs ++ fnRelocs) ∧
      depRelocs.map (fun w => w.2.target) = deps.map some ∧
      fnRelocs.map (fun w => w.2.target) = fns.map some ∧
      depCount = depRelocs.length ∧ fnCount = fnRelocs.length ∧
      depCount = deps.length ∧ fnCount = fns.length := by
  obtain ⟨_, _, hda, _⟩ := fninit_emitted_state ext st st' n deps fns h
  refine ⟨deps.length, fns.length, relocsFrom ext (taskSym st) 3 deps,
    relocsFrom ext (taskSym st) (3 + deps.length) fns, ?_, relocsFrom_target _ _ _ _,
    relocsFrom_target _ _ _ _, (relocsFrom_length _ _ _ _).symm,
    (relocsFrom_length _ _ _ _).symm, rfl, rfl⟩
  rw [hda]
  simp [recordData]

/-- Witness of C8: the record of `stTwoInits` with one initialization
statement, no dependency and the two functions `init` and `init.0`. -/
theorem fninit_counts_witness :
    ∃ (depCount fnCount : Nat) (depRelocs fnRelocs : List (LSym × Datum)),
      (fninit ext64 stTwoInits oneStmt).state.data = stTwoInits.data ++
        ([(taskSym stTwoInits, Datum.int 0 ext64.Widthptr 0),
          (taskSym stTwoInits, Datum.int ext64.Widthptr ext64.Widthptr depCount),
          (taskSym stTwoInits, Datum.int (2 * ext64.Widthptr) ext64.Widthptr fnCount)]
          ++ depRelocs ++ fnRelocs) ∧
      depRelocs.map (fun w => w.2.target) = ([] : List LSym).map some ∧
      fnRelocs.map (fun w => w.2.target) =
        [(stTwoInits.lookup "init").Linksym, (stTwoInits.lookupN "init." 0).Linksym].map some ∧
      depCount = depRelocs.length ∧ fnCount = fnRelocs.length ∧
      depCount = ([] : List LSym).length ∧
      fnCount =
        [(stTwoInits.lookup "init").Linksym, (stTwoInits.lookupN "init." 0).Linksym].length :=
  fninit_counts ext64 stTwoInits (fninit ext64 stTwoInits oneStmt).state oneStmt []
    [(stTwoInits.lookup "init").Linksym, (stTwoInits.lookupN "init." 0).Linksym] (by decide)

/-! ## The pending temporaries -/

theorem goAppend_getD {α : Type} (s : Option (List α)) (xs : List α) :
    (goAppend s xs).getD [] = s.getD [] ++ xs := by
  cases xs with
  | nil => simp [goAppend]
  | cons x rest => simp [goAppend]

/-- C9: for every non-empty sequence of initialization statements and every
list of pending temporaries in `initTodo`, the step of lines 58-77 appends one
function to `xtop`, the function `dclfunc` returned; its declaration list is
the one it had followed by the pending temporaries, each once and in their
order, each with this function as owner; and the list of `initTodo` is nil
afterwards. -/
theorem makeInit_reparents (ext : Ext) (st : State) (first : Stmt) (rest : List Stmt)
    (fns : List LSym) (todo : Func) (htodo : st.initTodo = some todo) :
    ∃ s fn, makeInit ext st (first :: rest) fns = .ok (s, fns ++ [(st.lookup "init").Linksym]) ∧
      s.xtop = st.xtop ++ [fn] ∧
      fn.ref = (ext.dclfunc (st.lookup "init") first.pos).ref ∧
      fn.dcl.getD [] = (ext.dclfunc (st.lookup "init") first.pos).dcl.getD [] ++
        (todo.dcl.getD []).map (fun d => { d with curfn := some fn.ref }) ∧
      ((todo.dcl.getD []).map (fun d => ({ d with curfn := some fn.ref } : Name))).map
        (fun d => d.sym) = (todo.dcl.getD []).map (fun d => d.sym) ∧
      (∀ d ∈ todo.dcl.getD [], ({ d with curfn := some fn.ref } : Name) ∈ fn.dcl.getD []) ∧
      (∀ d ∈ (todo.dcl.getD []).map (fun d => ({ d with curfn := some fn.ref } : Name)),
        d.curfn = some fn.ref) ∧
      s.initTodo = some { todo with dcl := none } ∧
      (s.initTodo.bind (fun t => t.dcl)) = none := by
  simp only [makeInit, htodo]
  refine ⟨_, _, rfl, rfl, rfl, ?_, ?_, ?_, ?_, rfl, rfl⟩
  · simp only [goAppend_getD]
    rfl
  · simp [List.map_map, Function.comp_def]
  · intro d hd
    simp only [goAppend_getD]
    exact List.mem_append_right _ (List.mem_map.2 ⟨d, hd, rfl⟩)
  · intro d hd
    obtain ⟨d0, _, rfl⟩ := List.mem_map.1 hd
    rfl

/-- Witness of C9: the two temporaries of `stTemps` and one statement. -/
theorem makeInit_reparents_witness :
    (match makeInit ext64 stTemps oneStmt [] with
      | .ok (s, _) => (s.xtop.map (fun fn => fn.dcl), s.initTodo.bind (fun t => t.dcl))
      | .error _ => ([], none)) =
      ([some
        [⟨⟨"example.com/lib", ".autotmp_1"⟩, some (FuncRef.named ⟨"example.com/lib", "init"⟩)⟩,
         ⟨⟨"example.com/lib", ".autotmp_2"⟩, some (FuncRef.named ⟨"example.com/lib", "init"⟩)⟩]],
        none) ∧
    ∃ s fn, makeInit ext64 stTemps (⟨Op.OTHER 2, 3⟩ :: []) [] =
        .ok (s, [] ++ [(stTemps.lookup "init").Linksym]) ∧
      s.xtop = stTemps.xtop ++ [fn] ∧
      fn.ref = (ext64.dclfunc (stTemps.lookup "init") (⟨Op.OTHER 2, 3⟩ : Stmt).pos).ref ∧
      fn.dcl.getD [] =
        (ext64.dclfunc (stTemps.lookup "init") (⟨Op.OTHER 2, 3⟩ : Stmt).pos).dcl.getD [] ++
        (pendingTemps.dcl.getD []).map (fun d => { d with curfn := some fn.ref }) ∧
      ((pendingTemps.dcl.getD []).map (fun d => ({ d with curfn := some fn.ref } : Name))).map
        (fun d => d.sym) = (pendingTemps.dcl.getD []).map (fun d => d.sym) ∧
      (∀ d ∈ pendingTemps.dcl.getD [],
        ({ d with curfn := some fn.ref } : Name) ∈ fn.dcl.getD []) ∧
      (∀ d ∈ (pendingTemps.dcl.getD []).map
          (fun d => ({ d with curfn := some fn.ref } : Name)),
        d.curfn = some fn.ref) ∧
      s.initTodo = some { pendingTemps with dcl := none } ∧
      (s.initTodo.bind (fun t => t.dcl)) = none :=
  ⟨by decide, makeInit_reparents ext64 stTemps ⟨Op.OTHER 2, 3⟩ [] [] pendingTemps rfl⟩

/-- The guard of line 78 tests the list of `initTodo` against nil: with the
scan passed, the run ends in "initTodo still has declarations" exactly when
there is no initialization statement and the list is not nil on entry. -/
theorem fninit_leftover_iff (ext : Ext) (st : State) (n : List Stmt) (todo : Func)
    (deps : List LSym) (htodo : st.initTodo = some todo)
    (hscan : findDeps ext st st.sourceOrderImports [] = .ok deps) :
    (∃ s, fninit ext st n = .fatal Fatal.initTodoStillHasDeclarations s) ↔
      (ext.initOrder n = [] ∧ todo.dcl ≠ none) := by
  unfold fninit
  simp only [hscan]
  cases hnf : ext.initOrder n with
  | nil =>
    simp only [makeInit, htodo, true_and]
    cases hd : todo.dcl with
    | none =>
      simp only [Option.isSome_none, Bool.false_eq_true, if_false, ne_eq, not_true_eq_false,
        iff_false]
      rintro ⟨s, hs⟩
      split at hs
      · cases hs
      · split at hs <;> cases hs
    | some l => simp
  | cons first rest =>
    simp only [makeInit, htodo, Option.isSome_none, Bool.false_eq_true, if_false]
    constructor
    · rintro ⟨s, hs⟩
      split at hs
      · cases hs
      · split at hs <;> cases hs
    · rintro ⟨h, _⟩; cases h

/-- C10, the claim as stated, fails: the guard of line 78 is `initTodo.Dcl != nil`.
In `stDrained` there is no initialization statement and the list of `initTodo`
holds no declaration, on entry and after the step of lines 58-77, yet the list
is not nil and the run ends in "initTodo still has declarations". -/
theorem fninit_leftover_counterexample :
    stDrained.initTodo = some drainedTodo ∧
    drainedTodo.dcl.getD [] = [] ∧
    ext64.initOrder [] = [] ∧
    ((fninit ext64 stDrained []).state.initTodo.bind (fun t => t.dcl)).getD [] = [] ∧
    fninit ext64 stDrained [] = .fatal Fatal.initTodoStillHasDeclarations stDrained := by
  decide

/-- C10, amended: in a run whose scan of the imports passed, `fninit` ends in
the fatal error "initTodo still has declarations" exactly when there is no
initialization statement and the list of pending temporaries is not nil on
entry, which is exactly when the list is not nil after the step of lines
58-77; for a list that is nil or holds a declaration this is exactly when there
is no initialization statement and the list held declarations on entry; in
particular a list that is not empty after the step is fatal.  The error is
raised whatever the package name and the user init functions are, in the entry
state: no init function has been looked up and no record is emitted. -/
theorem fninit_leftover_fatal (ext : Ext) (st : State) (n : List Stmt) (todo : Func)
    (deps : List LSym) (htodo : st.initTodo = some todo)
    (hscan : findDeps ext st st.sourceOrderImports [] = .ok deps) :
    ((∃ s, fninit ext st n = .fatal Fatal.initTodoStillHasDeclarations s) ↔
      (ext.initOrder n = [] ∧ todo.dcl ≠ none)) ∧
    (todo.dcl ≠ some [] →
      ((∃ s, fninit ext st n = .fatal Fatal.initTodoStillHasDeclarations s) ↔
        (ext.initOrder n = [] ∧ todo.dcl.getD [] ≠ []))) ∧
    (∀ s, fninit ext st n = .fatal Fatal.initTodoStillHasDeclarations s →
      s = st ∧ (fninit ext st n).isEmitted = false ∧ (fninit ext st n).lists = none ∧
      (fninit ext st n).state = st) ∧
    (∃ s out t, makeInit ext st (ext.initOrder n) [] = .ok (s, out) ∧ s.initTodo = some t ∧
      ((∃ s, fninit ext st n = .fatal Fatal.initTodoStillHasDeclarations s) ↔ t.dcl ≠ none) ∧
      (t.dcl.getD [] ≠ [] ↔ (ext.initOrder n = [] ∧ todo.dcl.getD [] ≠ [])) ∧
      (t.dcl.getD [] ≠ [] →
        fninit ext st n = .fatal Fatal.initTodoStillHasDeclarations st ∧
        (fninit ext st n).isEmitted = false ∧ (fninit ext st n).lists = none ∧
        (fninit ext st n).state = st)) := by
  have hiff := fninit_leftover_iff ext st n todo deps htodo hscan
  have hfatal : ext.initOrder n = [] → todo.dcl ≠ none →
      fninit ext st n = .fatal Fatal.initTodoStillHasDeclarations st := by
    intro hnf hne
    have hsome : todo.dcl.isSome = true := by
      cases hd : todo.dcl with
      | none => exact absurd hd hne
      | some l => rfl
    unfold fninit
    simp only [hscan, hnf, makeInit, htodo, hsome, if_true]
  have hget : todo.dcl.getD [] ≠ [] → todo.dcl ≠ none := by
    intro h hd
    rw [hd] at h
    exact h rfl
  refine ⟨hiff, ?_, ?_, ?_⟩
  · intro hwf
    rw [hiff]
    constructor
    · rintro ⟨h1, h2⟩
      refine ⟨h1, ?_⟩
      cases hd : todo.dcl with
      | none => exact absurd hd h2
      | some l =>
        cases l with
        | nil => exact absurd hd hwf
        | cons a l => simp
    · rintro ⟨h1, h2⟩
      exact ⟨h1, hget h2⟩
  · intro s hs
    obtain ⟨hnf, hne⟩ := hiff.1 ⟨s, hs⟩
    have hf := hfatal hnf hne
    rw [hf] at hs
    injection hs with _ h2
    rw [hf]
    exact ⟨h2.symm, rfl, rfl, rfl⟩
  · cases hnf : ext.initOrder n with
    | nil =>
      refine ⟨st, [], todo, rfl, htodo, ?_, by simp, ?_⟩
      · rw [hiff]
        simp [hnf]
      · intro hne
        have hf := hfatal hnf (hget hne)
        rw [hf]
        exact ⟨rfl, rfl, rfl, rfl⟩
    | cons first rest =>
      simp only [makeInit, htodo]
      refine ⟨_, _, _, rfl, rfl, ?_, ?_, ?_⟩
      · rw [hiff]
        simp [hnf]
      · simp
      · intro hne
        exact absurd rfl hne

/-- Witness of C10 amended: the package `main` of `stMainTemps`. -/
theorem fninit_leftover_fatal_witness :
    stMainTemps.LocalPkg.name = "main" ∧
    ((∃ s, fninit ext64 stMainTemps [] = .fatal Fatal.initTodoStillHasDeclarations s) ↔
      (ext64.initOrder [] = [] ∧ pendingTemps.dcl ≠ none)) ∧
    fninit ext64 stMainTemps [] = .fatal Fatal.initTodoStillHasDeclarations stMainTemps :=
  ⟨rfl, (fninit_leftover_fatal ext64 stMainTemps [] pendingTemps [] rfl rfl).1, by decide⟩

/-! ## Complete records only -/

/-- The state of a run that did not end with the record differs from the entry
state in nothing that concerns symbols or linker output. -/
theorem fninit_not_emitted_state (ext : Ext) (st : State) (n : List Stmt)
    (h : (fninit ext st n).isEmitted = false) :
    (fninit ext st n).state.defs = st.defs ∧
    (fninit ext st n).state.exportlist = st.exportlist ∧
    (fninit ext st n).state.data = st.data ∧
    (fninit ext st n).state.globl = st.globl := by
  rcases fninit_inv ext st n with ⟨_, _, m, _, _, h1⟩ | ⟨_, s, hu, h1⟩
  · rw [h1]; exact ⟨rfl, rfl, rfl, rfl⟩
  · obtain ⟨_, _, _, hd, he, hda, hg⟩ := hu
    rcases h1 with h1 | h1 | ⟨_, _, h1⟩ | ⟨_, _, h1⟩
    · rw [h1]; exact ⟨hd, he, hda, hg⟩
    · rw [h1]; exact ⟨hd, he, hda, hg⟩
    · rw [h1]; exact ⟨hd, he, hda, hg⟩
    · rw [h1] at h; cases h

/-- C11: a run of `fninit` that ends in a fatal error ("bad inittask" or
"initTodo still has declarations") has bound no definition, exported no name,
written no word or relocation and declared no symbol; a run that does not end
in a fatal error has either emitted nothing at all or bound and exported the
`.inittask` name, written the complete record (three words, one relocation per
element of `deps`, one per element of `fns`) and declared the symbol. -/
theorem fninit_no_partial_emission (ext : Ext) (st : State) (n : List Stmt) :
    (∀ msg s, fninit ext st n = .fatal msg s →
      s.defs = st.defs ∧ s.exportlist = st.exportlist ∧ s.data = st.data ∧
      s.globl = st.globl) ∧
    ((∀ msg s, fninit ext st n ≠ .fatal msg s) →
      ((fninit ext st n).state.defs = st.defs ∧
        (fninit ext st n).state.exportlist = st.exportlist ∧
        (fninit ext st n).state.data = st.data ∧
        (fninit ext st n).state.globl = st.globl) ∨
      (∃ deps fns, (fninit ext st n).lists = some (deps, fns) ∧
        (fninit ext st n).state.defs = (st.lookup ".inittask", taskNode st) :: st.defs ∧
        (fninit ext st n).state.exportlist = st.exportlist ++ [taskNode st] ∧
        (fninit ext st n).state.data = st.data ++
          ([(taskSym st, Datum.int 0 ext.Widthptr 0),
            (taskSym st, Datum.int ext.Widthptr ext.Widthptr deps.length),
            (taskSym st, Datum.int (2 * ext.Widthptr) ext.Widthptr fns.length)]
            ++ relocsFrom ext (taskSym st) 3 deps
            ++ relocsFrom ext (taskSym st) (3 + deps.length) fns) ∧
        (relocsFrom ext (taskSym st) 3 deps).length = deps.length ∧
        (relocsFrom ext (taskSym st) (3 + deps.length) fns).length = fns.length ∧
        (fninit ext st n).state.globl = st.globl ++
          [(taskSym st, int32 ((3 + deps.length + fns.length) * ext.Widthptr),
            ext.NOPTR)])) := by
  constructor
  · intro msg s h
    have hne : (fninit ext st n).isEmitted = false := by rw [h]; rfl
    have := fninit_not_emitted_state ext st n hne
    rw [h] at this
    exact this
  · intro _
    cases hr : fninit ext st n with
    | fatal msg s =>
      left
      have hne : (fninit ext st n).isEmitted = false := by rw [hr]; rfl
      have := fninit_not_emitted_state ext st n hne
      rw [hr] at this
      exact this
    | nilDeref s =>
      left
      have hne : (fninit ext st n).isEmitted = false := by rw [hr]; rfl
      have := fninit_not_emitted_state ext st n hne
      rw [hr] at this
      exact this
    | returned s deps fns =>
      left
      have hne : (fninit ext st n).isEmitted = false := by rw [hr]; rfl
      have := fninit_not_emitted_state ext st n hne
      rw [hr] at this
      exact this
    | emitted s deps fns =>
      right
      obtain ⟨hd, he, hda, hg⟩ := fninit_emitted_state ext st s n deps fns hr
      refine ⟨deps, fns, rfl, hd, he, ?_, relocsFrom_length _ _ _ _,
        relocsFrom_length _ _ _ _, hg⟩
      show s.data = _
      rw [hda]
      simp [recordData]

/-- Witness of C11: the fatal run of `stBadSecond` leaves nothing behind, the
run of `stABC` leaves the complete record of five words. -/
theorem fninit_no_partial_emission_witness :
    (fninit ext64 stBadSecond []).state.data = [] ∧
    (fninit ext64 stBadSecond []).state.defs = stBadSecond.defs ∧
    (fninit ext64 stABC []).state.data.length = 5 ∧
    (fninit ext64 stABC []).state.globl = [(taskSym stABC, 40, 16)] :=
  ⟨((fninit_no_partial_emission ext64 stBadSecond []).1 (Fatal.badInittask notAName)
      stBadSecond (by decide)).2.2.1,
    ((fninit_no_partial_emission ext64 stBadSecond []).1 (Fatal.badInittask notAName)
      stBadSecond (by decide)).1,
    by decide, by decide⟩

/-! ## The names issued by `renameinit` -/

theorem wrapInt_of_range (x : Int) (h1 : -2 ^ 63 ≤ x) (h2 : x < 2 ^ 63) : wrapInt x = x := by
  unfold wrapInt
  omega

theorem renameinitIter_pkg : ∀ (k : Nat) (st : State),
    (renameinitIter k st).LocalPkg = st.LocalPkg := by
  intro k
  induction k with
  | zero => intro st; rfl
  | succ k ih => intro st; rw [renameinitIter, ih]; rfl

theorem renameinitIter_eq : ∀ (k : Nat) (st : State), -2 ^ 63 ≤ st.renameinitgen →
    st.renameinitgen + k < 2 ^ 63 →
    renameinitIter k st = { st with renameinitgen := st.renameinitgen + k } := by
  intro k
  induction k with
  | zero => intro st _ _; simp [renameinitIter]
  | succ k ih =>
    intro st h1 h2
    have hw : wrapInt (st.renameinitgen + 1) = st.renameinitgen + 1 :=
      wrapInt_of_range _ (by omega) (by push_cast at h2; omega)
    have hstep : (renameinit st).2 = { st with renameinitgen := st.renameinitgen + 1 } := by
      simp only [renameinit, hw]
    rw [renameinitIter, hstep, ih]
    · simp only [State.mk.injEq, and_true, true_and]
      push_cast
      omega
    · show -2 ^ 63 ≤ st.renameinitgen + 1
      omega
    · show st.renameinitgen + 1 + (k : Int) < 2 ^ 63
      push_cast at h2
      omega

/-- C12, the claim as stated, fails at the end of the range of `int`: from the
counter value `2 ^ 63 - 1` the first call leaves the counter at `-2 ^ 63`, not
at `2 ^ 63`, and the call after it returns the name `init.-9223372036854775808`,
not `init.9223372036854775808`. -/
theorem renameinit_overflow_counterexample :
    stMaxInt.renameinitgen = 2 ^ 63 - 1 ∧
    (renameinit (renameinitIter 0 stMaxInt)).2.renameinitgen = -2 ^ 63 ∧
    (renameinit (renameinitIter 0 stMaxInt)).2.renameinitgen ≠ stMaxInt.renameinitgen + 0 + 1 ∧
    (renameinit (renameinitIter 1 stMaxInt)).1.name = "init.-9223372036854775808" ∧
    (renameinit (renameinitIter 1 stMaxInt)).1.name ≠
      "init." ++ itoa (stMaxInt.renameinitgen + 1) := by
  decide

/-- C12, amended: starting from the counter value `c`, the call of `renameinit`
that follows `k` earlier calls returns the symbol named `init.` followed by the
decimal rendering of `c + k` and leaves the counter at `c + k + 1`, as long as
`c + k` stays below the largest `int`; two different calls in that range return
different names; and no call returns the name `init` of the function that
holds the initialization statements. -/
theorem renameinit_no_collision (st : State) (hlo : -2 ^ 63 ≤ st.renameinitgen) :
    (∀ k : Nat, st.renameinitgen + k < 2 ^ 63 - 1 →
      renameinit (renameinitIter k st) =
        (⟨st.LocalPkg.path, "init." ++ itoa (st.renameinitgen + k)⟩,
          { st with renameinitgen := st.renameinitgen + k + 1 })) ∧
    (∀ j k : Nat, j ≠ k → st.renameinitgen + j < 2 ^ 63 - 1 →
      st.renameinitgen + k < 2 ^ 63 - 1 →
      (renameinit (renameinitIter j st)).1 ≠ (renameinit (renameinitIter k st)).1 ∧
      (renameinit (renameinitIter j st)).1.name ≠ (renameinit (renameinitIter k st)).1.name) ∧
    (∀ k : Nat, (renameinit (renameinitIter k st)).1 ≠ st.lookup "init" ∧
      (renameinit (renameinitIter k st)).1.name ≠ "init") := by
  have hcall : ∀ k : Nat, st.renameinitgen + k < 2 ^ 63 - 1 →
      renameinit (renameinitIter k st) =
        (⟨st.LocalPkg.path, "init." ++ itoa (st.renameinitgen + k)⟩,
          { st with renameinitgen := st.renameinitgen + k + 1 }) := by
    intro k hk
    rw [renameinitIter_eq k st hlo (by omega)]
    have hw : wrapInt (st.renameinitgen + k + 1) = st.renameinitgen + k + 1 :=
      wrapInt_of_range _ (by omega) (by omega)
    simp only [renameinit, hw]
    rfl
  refine ⟨hcall, ?_, ?_⟩
  · intro j k hjk hj hk
    rw [hcall j hj, hcall k hk]
    have hname : "init." ++ itoa (st.renameinitgen + j) ≠
        "init." ++ itoa (st.renameinitgen + k) := by
      intro h
      have := initName_injective _ _ h
      omega
    refine ⟨?_, hname⟩
    intro h
    simp only [Sym.mk.injEq, true_and] at h
    exact hname h
  · intro k
    have hn : (renameinit (renameinitIter k st)).1 =
        ⟨st.LocalPkg.path, "init." ++ itoa (renameinitIter k st).renameinitgen⟩ := by
      simp only [renameinit, State.lookupN, State.lookup, Pkg.Lookup, renameinitIter_pkg]
    rw [hn]
    refine ⟨?_, initName_ne _⟩
    intro h
    simp only [State.lookup, Pkg.Lookup, Sym.mk.injEq, true_and] at h
    exact initName_ne _ h

/-- Witness of C12 amended: the third call after the one issued name of
`stLib`. -/
theorem renameinit_no_collision_witness :
    (renameinit (renameinitIter 2 stLib)).1.name = "init.3" ∧
    (renameinit (renameinitIter 2 stLib)).2.renameinitgen = 4 :=
  ⟨congrArg (fun p => p.1.name)
      ((renameinit_no_collision stLib (by decide)).1 2 (by decide)),
    congrArg (fun p => p.2.renameinitgen)
      ((renameinit_no_collision stLib (by decide)).1 2 (by decide))⟩

/-! ## No duplicate in `fns` -/

theorem userFn_some (st : State) (i : Nat) (x : LSym) (h : userFn st i = some x) :
    x = (st.lookupN "init." i).Linksym := by
  unfold userFn at h
  cases hd : st.Defn (st.lookupN "init." i) with
  | none => simp [hd] at h
  | some fn =>
    simp only [hd] at h
    by_cases he : emptyBody fn = true
    · simp [he] at h
    · rw [if_neg he] at h
      injection h with h
      exact h.symm

theorem fnsOf_nodup (ext : Ext) (st : State) (n : List Stmt) : (fnsOf ext st n).Nodup := by
  unfold fnsOf
  rw [List.nodup_append]
  refine ⟨?_, ?_, ?_⟩
  · cases ext.initOrder n with
    | nil => simp [synthFns]
    | cons a l => simp [synthFns]
  · apply List.Nodup.filterMap _ (List.nodup_range _)
    intro a a' b ha ha'
    have h1 := userFn_some st a b ha
    have h2 := userFn_some st a' b ha'
    exact lookupN_injective st a a' (h1.symm.trans h2)
  · intro x hx hy
    obtain ⟨i, _, hi⟩ := List.mem_filterMap.1 hy
    have h1 := userFn_some st i x hi
    have h2 : x = initSym st := by
      cases hnf : ext.initOrder n with
      | nil => rw [hnf] at hx; simp [synthFns] at hx
      | cons a l => rw [hnf] at hx; simpa [synthFns] using hx
    exact lookupN_ne_init st i (h1.symm.trans h2)

/-- C15: in every run of `fninit` that reaches line 97 no symbol occurs more
than once in `fns`: the symbol `init` occurs at most once, it differs from
every `init.N`, and every `init.N` occurs at most once. -/
theorem fninit_fns_nodup (ext : Ext) (st : State) (n : List Stmt) (deps fns : List LSym)
    (h : (fninit ext st n).lists = some (deps, fns)) :
    fns.Nodup ∧ (∀ x, fns.count x ≤ 1) ∧
    fns.count (st.lookup "init").Linksym ≤ 1 ∧
    (∀ i : Nat, (st.lookupN "init." i).Linksym ≠ (st.lookup "init").Linksym) ∧
    (∀ i : Nat, fns.count (st.lookupN "init." i).Linksym ≤ 1) := by
  obtain ⟨_, hf⟩ := fninit_lists ext st n deps fns h
  have hnd : fns.Nodup := by rw [hf]; exact fnsOf_nodup ext st n
  have hc : ∀ x, fns.count x ≤ 1 := List.nodup_iff_count_le_one.1 hnd
  exact ⟨hnd, hc, hc _, fun i => lookupN_ne_init st i, fun i => hc _⟩

/-- Witness of C15: the list `[init, init.0]` of `stTwoInits`. -/
theorem fninit_fns_nodup_witness :
    [(stTwoInits.lookup "init").Linksym, (stTwoInits.lookupN "init." 0).Linksym].Nodup :=
  (fninit_fns_nodup ext64 stTwoInits oneStmt []
    [(stTwoInits.lookup "init").Linksym, (stTwoInits.lookupN "init." 0).Linksym]
    (by decide)).1

/-! ## The elision criterion -/

/-- C16: in every run of `fninit` that reaches line 97, the symbol of a user
init function is absent from `fns` if and only if its body is a single `OEMPTY`
statement; a body of no statement, a body of two or more statements (all
`OEMPTY` or not) and a body of one statement that is not `OEMPTY` all have the
symbol in `fns`, after the symbol `init` when there are initialization
statements. -/
theorem fninit_elision_exact (ext : Ext) (st : State) (n : List Stmt) (deps fns : List LSym)
    (h : (fninit ext st n).lists = some (deps, fns)) :
    (∀ i < st.renameinitgen.toNat, ∀ fn, st.Defn (st.lookupN "init." i) = some fn →
      ((st.lookupN "init." i).Linksym ∉ fns ↔ ∃ pos, fn.body = [⟨Op.OEMPTY, pos⟩])) ∧
    (∀ i < st.renameinitgen.toNat, ∀ fn, st.Defn (st.lookupN "init." i) = some fn →
      fn.body = [] → (st.lookupN "init." i).Linksym ∈ fns) ∧
    (∀ i < st.renameinitgen.toNat, ∀ fn, st.Defn (st.lookupN "init." i) = some fn →
      2 ≤ fn.body.length → (st.lookupN "init." i).Linksym ∈ fns) ∧
    (∀ i < st.renameinitgen.toNat, ∀ fn s, st.Defn (st.lookupN "init." i) = some fn →
      fn.body = [s] → s.op ≠ Op.OEMPTY → (st.lookupN "init." i).Linksym ∈ fns) ∧
    (ext.initOrder n ≠ [] →
      fns = (st.lookup "init").Linksym ::
        (List.range st.renameinitgen.toNat).filterMap (userFn st)) := by
  obtain ⟨_, hf⟩ := fninit_lists ext st n deps fns h
  have key : ∀ i < st.renameinitgen.toNat, ∀ fn, st.Defn (st.lookupN "init." i) = some fn →
      ((st.lookupN "init." i).Linksym ∉ fns ↔ ∃ pos, fn.body = [⟨Op.OEMPTY, pos⟩]) := by
    intro i hi fn hd
    rw [← emptyBody_iff, hf, mem_fnsOf]
    constructor
    · intro hnot
      by_contra he
      apply hnot
      right
      exact ⟨i, hi, fn, hd, by simpa using he, rfl⟩
    · intro he hmem
      rcases hmem with ⟨_, hx⟩ | ⟨j, _, fn2, hd2, he2, hx⟩
      · exact lookupN_ne_init st i hx
      · have hij := lookupN_injective st i j hx
        subst hij
        rw [hd] at hd2
        injection hd2 with hd2
        subst hd2
        rw [he] at he2
        cases he2
  have mem_of : ∀ i < st.renameinitgen.toNat, ∀ fn, st.Defn (st.lookupN "init." i) = some fn →
      (¬ ∃ pos, fn.body = [⟨Op.OEMPTY, pos⟩]) → (st.lookupN "init." i).Linksym ∈ fns := by
    intro i hi fn hd hne
    by_contra hnot
    exact hne ((key i hi fn hd).1 hnot)
  refine ⟨key, ?_, ?_, ?_, ?_⟩
  · intro i hi fn hd hb
    apply mem_of i hi fn hd
    rintro ⟨pos, hp⟩
    rw [hb] at hp
    cases hp
  · intro i hi fn hd hb
    apply mem_of i hi fn hd
    rintro ⟨pos, hp⟩
    rw [hp] at hb
    simp at hb
  · intro i hi fn s hd hb hs
    apply mem_of i hi fn hd
    rintro ⟨pos, hp⟩
    rw [hb] at hp
    injection hp with hp
    rw [hp] at hs
    exact hs rfl
  · intro hnf
    rw [hf, fnsOf]
    cases hn : ext.initOrder n with
    | nil => exact absurd hn hnf
    | cons a l => rfl

/-- Witness of C16: of the three functions of `stBodies` only `init.2`, whose
body is a single `OEMPTY`, is left out. -/
theorem fninit_elision_exact_witness :
    (fninit ext64 stBodies []).lists =
      some ([], [(stBodies.lookupN "init." 0).Linksym, (stBodies.lookupN "init." 1).Linksym]) ∧
    (stBodies.lookupN "init." 0).Linksym ∈
      [(stBodies.lookupN "init." 0).Linksym, (stBodies.lookupN "init." 1).Linksym] ∧
    (stBodies.lookupN "init." 1).Linksym ∈
      [(stBodies.lookupN "init." 0).Linksym, (stBodies.lookupN "init." 1).Linksym] ∧
    (stBodies.lookupN "init." 2).Linksym ∉
      [(stBodies.lookupN "init." 0).Linksym, (stBodies.lookupN "init." 1).Linksym] :=
  have h := fninit_elision_exact ext64 stBodies [] []
    [(stBodies.lookupN "init." 0).Linksym, (stBodies.lookupN "init." 1).Linksym] (by decide)
  ⟨by decide,
    h.2.1 0 (by decide) (declaredFunc ⟨"example.com/lib", "init.0"⟩ []) (by decide) rfl,
    h.2.2.1 1 (by decide)
      (declaredFunc ⟨"example.com/lib", "init.1"⟩ [⟨Op.OEMPTY, 12⟩, ⟨Op.OEMPTY, 13⟩])
      (by decide) (by decide),
    (h.1 2 (by decide) (declaredFunc ⟨"example.com/lib", "init.2"⟩ [⟨Op.OEMPTY, 14⟩])
      (by decide)).2 ⟨14, rfl⟩⟩

/-! ## When a record is emitted -/

/-- A run that ends with the record did not satisfy the condition of line 97. -/
theorem fninit_emitted_not_short (ext : Ext) (st st' : State) (n : List Stmt)
    (deps fns : List LSym) (h : fninit ext st n = .emitted st' deps fns) :
    ¬ shortCircuit st deps fns := by
  rcases fninit_inv ext st n with ⟨_, _, m, _, _, h1⟩ | ⟨_, s, _, h1⟩
  · rw [h1] at h; cases h
  · rcases h1 with h1 | h1 | ⟨_, _, h1⟩ | ⟨_, hns, h1⟩
    · rw [h1] at h; cases h
    · rw [h1] at h; cases h
    · rw [h1] at h; cases h
    · rw [h1] at h
      injection h with _ h3 h4
      rw [← h3, ← h4]
      exact hns

theorem recordData_ne_nil (ext : Ext) (lsym : LSym) (deps fns : List LSym) :
    recordData ext lsym deps fns ≠ [] := by
  simp [recordData]

/-- C17: a run of `fninit` that is not aborted reaches line 97 with its lists
`deps` and `fns`.  If one of them is not empty, or the package is named `main`
or `runtime`, the run ends with the record: the `.inittask` name is bound and
exported, the three words and the relocations of `deps` and of `fns` are
written after the data that was there, and the symbol is declared.  Otherwise
nothing is bound, exported, written or declared.  So data is written if and
only if `deps` is not empty, or `fns` is not empty, or the package is named
`main` or `runtime`. -/
theorem fninit_emits_iff (ext : Ext) (st : State) (n : List Stmt)
    (hrun : (fninit ext st n).isAbort = false) :
    ∃ deps fns, (fninit ext st n).lists = some (deps, fns) ∧
      deps = depsOf ext st ∧ fns = fnsOf ext st n ∧
      ((deps ≠ [] ∨ fns ≠ [] ∨ st.LocalPkg.name = "main" ∨ st.LocalPkg.name = "runtime") →
        (fninit ext st n).isEmitted = true ∧
        (fninit ext st n).state.Def (st.lookup ".inittask") = some (taskNode st) ∧
        (fninit ext st n).state.defs = (st.lookup ".inittask", taskNode st) :: st.defs ∧
        (fninit ext st n).state.exportlist = st.exportlist ++ [taskNode st] ∧
        (fninit ext st n).state.data = st.data ++ recordData ext (taskSym st) deps fns ∧
        (fninit ext st n).state.globl = st.globl ++
          [(taskSym st, int32 ((3 + deps.length + fns.length) * ext.Widthptr), ext.NOPTR)]) ∧
      (¬ (deps ≠ [] ∨ fns ≠ [] ∨ st.LocalPkg.name = "main" ∨ st.LocalPkg.name = "runtime") →
        (fninit ext st n).isEmitted = false ∧
        (fninit ext st n).state.defs = st.defs ∧
        (fninit ext st n).state.exportlist = st.exportlist ∧
        (fninit ext st n).state.data = st.data ∧
        (fninit ext st n).state.globl = st.globl) ∧
      ((fninit ext st n).state.data ≠ st.data ↔
        (deps ≠ [] ∨ fns ≠ [] ∨ st.LocalPkg.name = "main" ∨ st.LocalPkg.name = "runtime")) ∧
      ((fninit ext st n).isEmitted = true ↔
        (deps ≠ [] ∨ fns ≠ [] ∨ st.LocalPkg.name = "main" ∨ st.LocalPkg.name = "runtime")) := by
  have hl : ∃ deps fns, (fninit ext st n).lists = some (deps, fns) := by
    cases hr : fninit ext st n with
    | fatal msg s => rw [hr] at hrun; cases hrun
    | nilDeref s => rw [hr] at hrun; cases hrun
    | returned s d f => exact ⟨d, f, rfl⟩
    | emitted s d f => exact ⟨d, f, rfl⟩
  obtain ⟨deps, fns, hl⟩ := hl
  obtain ⟨hd, hf⟩ := fninit_lists ext st n deps fns hl
  have hyes : (deps ≠ [] ∨ fns ≠ [] ∨ st.LocalPkg.name = "main" ∨
        st.LocalPkg.name = "runtime") →
      (fninit ext st n).isEmitted = true ∧
      (fninit ext st n).state.Def (st.lookup ".inittask") = some (taskNode st) ∧
      (fninit ext st n).state.defs = (st.lookup ".inittask", taskNode st) :: st.defs ∧
      (fninit ext st n).state.exportlist = st.exportlist ++ [taskNode st] ∧
      (fninit ext st n).state.data = st.data ++ recordData ext (taskSym st) deps fns ∧
      (fninit ext st n).state.globl = st.globl ++
        [(taskSym st, int32 ((3 + deps.length + fns.length) * ext.Widthptr), ext.NOPTR)] := by
    intro hne
    obtain ⟨st', h⟩ := fninit_emitted_of_lists ext st n deps fns hl hne
    obtain ⟨h1, h2, h3, h4⟩ := fninit_emitted_state ext st st' n deps fns h
    rw [h]
    refine ⟨rfl, ?_, h1, h2, h3, h4⟩
    show st'.defs.lookup (st.lookup ".inittask") = some (taskNode st)
    rw [h1]
    simp [List.lookup]
  have hno : ¬ (deps ≠ [] ∨ fns ≠ [] ∨ st.LocalPkg.name = "main" ∨
        st.LocalPkg.name = "runtime") →
      (fninit ext st n).isEmitted = false ∧
      (fninit ext st n).state.defs = st.defs ∧
      (fninit ext st n).state.exportlist = st.exportlist ∧
      (fninit ext st n).state.data = st.data ∧
      (fninit ext st n).state.globl = st.globl := by
    intro hcon
    have he : (fninit ext st n).isEmitted = false := by
      cases hr : fninit ext st n with
      | fatal msg s => rfl
      | nilDeref s => rfl
      | returned s d f => rfl
      | emitted s d f =>
        exfalso
        rw [hr] at hl
        simp only [Result.lists, Option.some.injEq, Prod.mk.injEq] at hl
        have hns := fninit_emitted_not_short ext st s n d f hr
        rw [hl.1, hl.2] at hns
        apply hns
        refine ⟨?_, ?_, ?_, ?_⟩
        · by_contra h0
          exact hcon (Or.inl (fun hnil => h0 (by rw [hnil]; rfl)))
        · by_contra h0
          exact hcon (Or.inr (Or.inl (fun hnil => h0 (by rw [hnil]; rfl))))
        · exact fun hm => hcon (Or.inr (Or.inr (Or.inl hm)))
        · exact fun hm => hcon (Or.inr (Or.inr (Or.inr hm)))
    exact ⟨he, fninit_not_emitted_state ext st n he⟩
  refine ⟨deps, fns, hl, hd, hf, hyes, hno, ?_, ?_⟩
  · constructor
    · intro hdata
      by_contra hcon
      exact hdata (hno hcon).2.2.2.1
    · intro hne hdata
      have h3 := (hyes hne).2.2.2.2.1
      rw [hdata] at h3
      have := congrArg List.length h3
      rw [List.length_append] at this
      have hpos : 0 < (recordData ext (taskSym st) deps fns).length :=
        List.length_pos.2 (recordData_ne_nil ext _ deps fns)
      omega
  · constructor
    · intro he
      by_contra hcon
      rw [(hno hcon).1] at he
      cases he
    · intro hne
      exact (hyes hne).1

/-- Witness of C17: the library `stABC` has two dependencies and its run
writes the record of five words. -/
theorem fninit_emits_iff_witness :
    (fninit ext64 stABC []).isAbort = false ∧
    (fninit ext64 stABC []).lists =
      some ([(importTask "example.com/a").1.Linksym, (importTask "example.com/c").1.Linksym],
        []) ∧
    ∃ deps fns, (fninit ext64 stABC []).lists = some (deps, fns) ∧
      ((fninit ext64 stABC []).state.data ≠ stABC.data ↔
        (deps ≠ [] ∨ fns ≠ [] ∨ stABC.LocalPkg.name = "main" ∨
          stABC.LocalPkg.name = "runtime")) :=
  ⟨by decide, by decide,
    match fninit_emits_iff ext64 stABC [] (by decide) with
    | ⟨deps, fns, h1, _, _, _, _, h4, _⟩ => ⟨deps, fns, h1, h4⟩⟩

/-! ## The frame of the step of lines 58-77 -/

theorem emitTask_frame (ext : Ext) (s : State) (deps fns : List LSym) :
    (emitTask ext s deps fns).xtop = s.xtop ∧ (emitTask ext s deps fns).basePos = s.basePos ∧
    (emitTask ext s deps fns).Curfn = s.Curfn := by
  rw [emitTask_eq]
  exact ⟨rfl, rfl, rfl⟩

/-- With no initialization statement a run ends with the list `xtop`, the
position and `Curfn` it started with. -/
theorem fninit_frame_nil (ext : Ext) (st : State) (n : List Stmt)
    (hnf : ext.initOrder n = []) :
    (fninit ext st n).state.xtop = st.xtop ∧
    (fninit ext st n).state.basePos = st.basePos ∧
    (fninit ext st n).state.Curfn = st.Curfn := by
  unfold fninit
  simp only [hnf, makeInit]
  split
  · exact ⟨rfl, rfl, rfl⟩
  · split
    · exact ⟨rfl, rfl, rfl⟩
    · split
      · exact ⟨rfl, rfl, rfl⟩
      · split
        · exact ⟨rfl, rfl, rfl⟩
        · split
          · exact ⟨rfl, rfl, rfl⟩
          · exact emitTask_frame ext _ _ _

/-- C18: with no initialization statement the step of lines 58-77 changes
nothing: the state (the list `xtop`, the position `base.Pos`, the list of
`initTodo` among the rest) and `fns` are as before, and so are `xtop` and
`base.Pos` at the end of the run; with statements, and `initTodo` allocated,
the position becomes that of the first statement, one function is appended to
`xtop`, its body is the sequence of statements as given, and `init` is
appended to `fns`. -/
theorem makeInit_frame (ext : Ext) (st : State) (fns : List LSym) :
    makeInit ext st [] fns = .ok (st, fns) ∧
    (∀ n, ext.initOrder n = [] →
      (fninit ext st n).state.xtop = st.xtop ∧
      (fninit ext st n).state.basePos = st.basePos ∧
      (fninit ext st n).state.Curfn = st.Curfn ∧
      (∀ deps out, (fninit ext st n).lists = some (deps, out) →
        (st.lookup "init").Linksym ∉ out)) ∧
    (∀ first rest todo, st.initTodo = some todo →
      (first :: rest)[0]? = some first ∧
      ∃ s fn, makeInit ext st (first :: rest) fns =
          .ok (s, fns ++ [(st.lookup "init").Linksym]) ∧
        s.basePos = first.pos ∧
        s.xtop = st.xtop ++ [fn] ∧
        s.xtop.length = st.xtop.length + 1 ∧
        fn.body = first :: rest ∧
        fn.ref = (ext.dclfunc (st.lookup "init") first.pos).ref) := by
  refine ⟨rfl, ?_, ?_⟩
  · intro n hnf
    obtain ⟨h1, h2, h3⟩ := fninit_frame_nil ext st n hnf
    refine ⟨h1, h2, h3, ?_⟩
    intro deps out hl hmem
    obtain ⟨_, hf⟩ := fninit_lists ext st n deps out hl
    rw [hf, mem_fnsOf] at hmem
    rcases hmem with ⟨hne, _⟩ | ⟨i, _, _, _, _, hx⟩
    · exact hne hnf
    · exact lookupN_ne_init st i hx.symm
  · intro first rest todo htodo
    refine ⟨by simp, ?_⟩
    simp only [makeInit, htodo]
    exact ⟨_, _, rfl, rfl, rfl, by simp, rfl, rfl⟩

/-- Witness of C18: one statement at position 3 over `stTemps`. -/
theorem makeInit_frame_witness :
    makeInit ext64 stTemps [] [] = .ok (stTemps, []) ∧
    (match makeInit ext64 stTemps oneStmt [] with
      | .ok (s, out) => (s.basePos, s.xtop.map (fun fn => fn.body), out)
      | .error _ => (0, [], [])) = (3, [oneStmt], [(stTemps.lookup "init").Linksym]) :=
  ⟨(makeInit_frame ext64 stTemps []).1, by decide⟩

/-! ## The own init task and the dependencies -/

/-- Lines 102-106 bind to `.inittask` a node of that very symbol: when every
definition of the symbol table carries the symbol it is bound to, the table a
run of `fninit` leaves is of that kind too. -/
theorem fninit_binds_own_symbol (ext : Ext) (st : State) (n : List Stmt)
    (h : ∀ s m, st.Def s = some m → m.sym = s) :
    ∀ s m, (fninit ext st n).state.Def s = some m → m.sym = s := by
  intro s m hs
  cases hr : fninit ext st n with
  | emitted st' deps fns =>
    obtain ⟨hd, _⟩ := fninit_emitted_state ext st st' n deps fns hr
    rw [hr] at hs
    simp only [Result.state, State.Def, hd, List.lookup] at hs
    split at hs
    · injection hs with hs
      rw [← hs]
      rename_i heq
      simpa [taskNode] using (beq_iff_eq.1 heq).symm
    · exact h s m hs
  | fatal msg st' =>
    have hd := (fninit_not_emitted_state ext st n (by rw [hr]; rfl)).1
    rw [hr] at hs hd
    simp only [Result.state] at hs hd
    exact h s m (by unfold State.Def at hs ⊢; rw [← hd]; exact hs)
  | nilDeref st' =>
    have hd := (fninit_not_emitted_state ext st n (by rw [hr]; rfl)).1
    rw [hr] at hs hd
    simp only [Result.state] at hs hd
    exact h s m (by unfold State.Def at hs ⊢; rw [← hd]; exact hs)
  | returned st' deps fns =>
    have hd := (fninit_not_emitted_state ext st n (by rw [hr]; rfl)).1
    rw [hr] at hs hd
    simp only [Result.state] at hs hd
    exact h s m (by unfold State.Def at hs ⊢; rw [← hd]; exact hs)

/-- C13: when the `.inittask` of the package has no definition before `fninit`
runs, the own init task is not in `deps`, for every import list, also one that
holds the package itself, and no dependency relocation of an emitted record
targets the record's own symbol.  The symbol table is one the compiler builds:
what line 47 finds for an import is a definition bound to the `.inittask`
symbol of that import and is a node of that symbol, as lines 102-106 bind
it. -/
theorem fninit_own_task_not_dep (ext : Ext) (st : State) (n : List Stmt)
    (hown : st.Def (st.lookup ".inittask") = none)
    (hfound : ∀ pkg ∈ st.sourceOrderImports, ∀ m,
      ext.resolve (st.Def (pkg.Lookup ".inittask")) = some m →
        st.Def (pkg.Lookup ".inittask") ≠ none ∧ m.sym = pkg.Lookup ".inittask") :
    (∀ deps fns, (fninit ext st n).lists = some (deps, fns) →
      (st.lookup ".inittask").Linksym ∉ deps) ∧
    (∀ st' deps fns, fninit ext st n = .emitted st' deps fns →
      ∀ w ∈ relocsFrom ext (taskSym st) 3 deps,
        w.2.target ≠ some (st.lookup ".inittask").Linksym) := by
  have key : (st.lookup ".inittask").Linksym ∉ depsOf ext st := by
    intro hmem
    obtain ⟨pkg, hpkg, hdep⟩ := List.mem_filterMap.1 hmem
    unfold depOf taskOf at hdep
    cases hm : ext.resolve (st.Def (pkg.Lookup ".inittask")) with
    | none => rw [hm] at hdep; cases hdep
    | some m =>
      rw [hm] at hdep
      simp only [Option.map_some', Option.some.injEq, Sym.Linksym, LSym.mk.injEq] at hdep
      obtain ⟨h0, h1⟩ := hfound pkg hpkg m hm
      rw [hdep] at h1
      rw [← h1] at h0
      exact h0 hown
  constructor
  · intro deps fns hl
    obtain ⟨hd, _⟩ := fninit_lists ext st n deps fns hl
    rw [hd]
    exact key
  · intro st' deps fns h w hw htarget
    have hl : (fninit ext st n).lists = some (deps, fns) := by rw [h]; rfl
    obtain ⟨hd, _⟩ := fninit_lists ext st n deps fns hl
    have hmap := relocsFrom_target ext (taskSym st) deps 3
    have : some (st.lookup ".inittask").Linksym ∈ deps.map some := by
      rw [← hmap]
      exact List.mem_map.2 ⟨w, hw, htarget⟩
    obtain ⟨x, hx, hxe⟩ := List.mem_map.1 this
    injection hxe with hxe
    rw [hxe, hd] at hx
    exact key hx

/-- Witness of C13: the library `stSelf` imports itself and `a`; its `deps` is
the init task of `a` alone. -/
theorem fninit_own_task_not_dep_witness :
    stSelf.Def (stSelf.lookup ".inittask") = none ∧
    (fninit ext64 stSelf []).lists = some ([(importTask "example.com/a").1.Linksym], []) ∧
    (stSelf.lookup ".inittask").Linksym ∉ [(importTask "example.com/a").1.Linksym] :=
  ⟨by decide, by decide,
    (fninit_own_task_not_dep ext64 stSelf [] (by decide)
      (by
        intro pkg hpkg m hm
        have hp : pkg = ⟨"example.com/lib", "lib"⟩ ∨ pkg = ⟨"example.com/a", "a"⟩ := by
          simpa [stSelf, emptyState] using hpkg
        rcases hp with hp | hp
        · subst hp
          have : ext64.resolve (stSelf.Def (Pkg.Lookup ⟨"example.com/lib", "lib"⟩ ".inittask"))
              = none := by decide
          rw [this] at hm
          cases hm
        · subst hp
          have : ext64.resolve (stSelf.Def (Pkg.Lookup ⟨"example.com/a", "a"⟩ ".inittask"))
              = some (importTask "example.com/a").2 := by decide
          rw [this] at hm
          injection hm with hm
          subst hm
          exact ⟨by decide, rfl⟩)).1 [(importTask "example.com/a").1.Linksym] [] (by decide)⟩

/-! ## Producer and consumer of `.inittask` -/

theorem findDeps_error_bad (ext : Ext) (st : State) (imports : List Pkg) :
    ∀ (deps : List LSym) (b : Node),
      findDeps ext st imports deps = .error (Fatal.badInittask b) → ¬ goodTask b := by
  induction imports with
  | nil => intro deps b h; simp [findDeps] at h
  | cons p rest ih =>
    intro deps b h
    rw [findDeps] at h
    cases hp : ext.resolve (st.Def (p.Lookup ".inittask")) with
    | none =>
      rw [hp] at h
      exact ih _ _ h
    | some m =>
      rw [hp] at h
      by_cases hc : m.op ≠ Op.ONAME ∨ m.cls ≠ Class.PEXTERN
      · simp only [hc, if_true, Except.error.injEq, Fatal.badInittask.injEq] at h
        subst h
        rintro ⟨h1, h2⟩
        rcases hc with hc | hc
        · exact hc h1
        · exact hc h2
      · simp only [hc, if_false] at h
        exact ih _ _ h

/-- A run that ends with the record has bound the name node to `.inittask`. -/
theorem fninit_emitted_def (ext : Ext) (st : State) (n : List Stmt)
    (h : (fninit ext st n).isEmitted = true) :
    (fninit ext st n).state.Def (st.lookup ".inittask") = some (taskNode st) ∧
    (fninit ext st n).state.exportlist = st.exportlist ++ [taskNode st] := by
  cases hr : fninit ext st n with
  | fatal msg s => rw [hr] at h; cases h
  | nilDeref s => rw [hr] at h; cases h
  | returned s d f => rw [hr] at h; cases h
  | emitted s d f =>
    obtain ⟨hd, he, _, _⟩ := fninit_emitted_state ext st s n d f hr
    refine ⟨?_, he⟩
    show List.lookup _ s.defs = _
    rw [hd]
    simp [List.lookup]

/-- C14: the definition `fninit` binds to the `.inittask` of a package `M` and
exports is a name of class `PEXTERN`, so it passes the check of line 51: a
compilation whose lookup of the `.inittask` of `M` yields what the compilation
of `M` left there neither skips `M` nor ends in "bad inittask" for it, but has
the init task of `M` in `deps`; and when the compilation of `M`, started
without a definition of `.inittask`, took the return of line 98, there is no
definition and `M` is skipped. -/
theorem inittask_producer_consumer (ext : Ext) (stM : State) (n : List Stmt)
    (ext' : Ext) (stN : State)
    (hsees : ext'.resolve (stN.Def (stM.LocalPkg.Lookup ".inittask")) =
      (fninit ext stM n).state.Def (stM.lookup ".inittask")) :
    ((fninit ext stM n).isEmitted = true →
      (fninit ext stM n).state.Def (stM.lookup ".inittask") = some (taskNode stM) ∧
      taskNode stM ∈ (fninit ext stM n).state.exportlist ∧
      (taskNode stM).op = Op.ONAME ∧ (taskNode stM).cls = Class.PEXTERN ∧
      findDeps ext' stN [stM.LocalPkg] [] = .ok [(stM.lookup ".inittask").Linksym] ∧
      (∀ imports b, findDeps ext' stN imports [] = .error (Fatal.badInittask b) →
        b ≠ taskNode stM) ∧
      (∀ imports deps, stM.LocalPkg ∈ imports → findDeps ext' stN imports [] = .ok deps →
        (stM.lookup ".inittask").Linksym ∈ deps)) ∧
    (∀ s deps fns, fninit ext stM n = .returned s deps fns →
      stM.Def (stM.lookup ".inittask") = none →
      (fninit ext stM n).state.Def (stM.lookup ".inittask") = none ∧
      findDeps ext' stN [stM.LocalPkg] [] = .ok [] ∧
      (∀ imports deps, findDeps ext' stN imports [] = .ok deps →
        deps = (imports.filter (fun p => p ≠ stM.LocalPkg)).filterMap (depOf ext' stN))) := by
  constructor
  · intro he
    obtain ⟨hdef, hexp⟩ := fninit_emitted_def ext stM n he
    have hres : ext'.resolve (stN.Def (stM.LocalPkg.Lookup ".inittask")) =
        some (taskNode stM) := by rw [hsees, hdef]
    have hgood : goodTask (taskNode stM) := ⟨rfl, rfl⟩
    have hdep : depOf ext' stN stM.LocalPkg = some (stM.lookup ".inittask").Linksym := by
      simp [depOf, taskOf, hres, taskNode]
    refine ⟨hdef, ?_, rfl, rfl, ?_, ?_, ?_⟩
    · rw [hexp]; simp
    · have hg : ∀ pkg ∈ [stM.LocalPkg], ∀ m, taskOf ext' stN pkg = some m → goodTask m := by
        intro pkg hpkg m hm
        rw [List.mem_singleton] at hpkg
        subst hpkg
        have : taskOf ext' stN stM.LocalPkg = some (taskNode stM) := hres
        rw [this] at hm
        injection hm with hm
        subst hm
        exact hgood
      rw [findDeps_ok ext' stN _ [] hg]
      simp [hdep]
    · intro imports b hb hbe
      apply findDeps_error_bad ext' stN imports [] b hb
      rw [hbe]
      exact hgood
    · intro imports deps hmem hok
      have hg := findDeps_ok_inv ext' stN imports [] deps hok
      have := findDeps_ok ext' stN imports [] hg
      rw [hok, List.nil_append] at this
      injection this with this
      rw [this]
      exact List.mem_filterMap.2 ⟨stM.LocalPkg, hmem, hdep⟩
  · intro s deps fns hr hfresh
    have hne : (fninit ext stM n).isEmitted = false := by rw [hr]; rfl
    obtain ⟨hd, _⟩ := fninit_not_emitted_state ext stM n hne
    have hdef : (fninit ext stM n).state.Def (stM.lookup ".inittask") = none := by
      show List.lookup _ (fninit ext stM n).state.defs = none
      rw [hd]
      exact hfresh
    have hres : ext'.resolve (stN.Def (stM.LocalPkg.Lookup ".inittask")) = none := by
      rw [hsees, hdef]
    have hdep : depOf ext' stN stM.LocalPkg = none := by
      simp [depOf, taskOf, hres]
    refine ⟨hdef, ?_, ?_⟩
    · rw [findDeps, hres]
      rfl
    · intro imports deps hok
      have hg := findDeps_ok_inv ext' stN imports [] deps hok
      have := findDeps_ok ext' stN imports [] hg
      rw [hok, List.nil_append] at this
      injection this with this
      rw [this]
      clear this hok hg
      induction imports with
      | nil => rfl
      | cons p rest ih =>
        by_cases hp : p = stM.LocalPkg
        · subst hp
          simp [List.filterMap_cons, hdep, ih]
        · simp [List.filter_cons, hp, List.filterMap_cons, ih]

/-- Witness of C14: the package of `stUser` imports the library of `stABC` and
has the init task of the library as its one dependency. -/
theorem inittask_producer_consumer_witness :
    (fninit ext64 stABC []).isEmitted = true ∧
    findDeps ext64 stUser [stABC.LocalPkg] [] = .ok [(stABC.lookup ".inittask").Linksym] :=
  ⟨by decide,
    ((inittask_producer_consumer ext64 stABC [] ext64 stUser (by decide)).1 (by decide)).2.2.2.2.1⟩

end Gc
